import Mathlib

/-!
Verification of the GitHub Actions version updater (src/update.py) against its
specification.  The Python source is shallowly embedded: the line matcher
(the regex in process_line), the two re.sub substitutions, the version
comparison via packaging.version, the resolver with its cache and rate-limit
flag (get_latest_version and helpers), and the file-update path
(update_action_version, finalize_update, create_backup) become executable Lean
functions.  Network I/O is an oracle parameter; filesystem I/O is an explicit
map with injected failures.
-/

deriving instance DecidableEq for Except

namespace UpdateActions

/-! ### Character classes of the Python regexes (ASCII, as in the workflow files) -/

/-- Python regex class [\w-]: word characters (letters, digits, underscore) or hyphen. -/
def isWordDash (c : Char) : Bool :=
  c.isAlpha || c.isDigit || c = '_' || c = '-'

/-- Python regex class [a-f0-9]: lowercase hexadecimal digit. -/
def isHexLower (c : Char) : Bool :=
  c.isDigit || ('a' ≤ c && c ≤ 'f')

/-- Python regex class \s (ASCII whitespace). -/
def isSpaceChar (c : Char) : Bool :=
  c = ' ' || c = '\t' || c = '\n' || c = '\r' || c = '\x0b' || c = '\x0c'

/-- Python regex class [\d.]: decimal digit or dot. -/
def isDigitDot (c : Char) : Bool :=
  c.isDigit || c = '.'

/-! ### Small parsing helpers -/

/-- Consume a literal token, returning the rest of the input. -/
def lit : List Char → List Char → Option (List Char)
  | [], l => some l
  | _ :: _, [] => none
  | p :: ps, c :: cs => if c = p then lit ps cs else none

/-- Greedy plus: a nonempty maximal run of characters satisfying p
(the class never overlaps the token that follows it in the pattern,
so maximal munch coincides with regex backtracking here). -/
def span1 (p : Char → Bool) (l : List Char) : Option (List Char × List Char) :=
  match l.takeWhile p with
  | [] => none
  | t => some (t, l.dropWhile p)

/-! ### The reference matcher

`re.search(r'uses:\s+([\w-]+)/([\w-]+)@([a-f0-9]+)\s+#\s*v?([\d.]+)', line)`
from process_line (src/update.py:300).  All capture groups are returned.
The optional `v` is committed when present: if a `v` is followed by no digit
or dot, the alternative without `v` also fails, exactly as in the regex. -/

structure RefGroups where
  owner : List Char
  repo : List Char
  sha : List Char
  ver : List Char
  deriving Repr, DecidableEq

/-- Attempt the pattern anchored at the start of `l`. -/
def matchAt (l : List Char) : Option RefGroups :=
  match lit ['u', 's', 'e', 's', ':'] l with
  | none => none
  | some l1 =>
    match span1 isSpaceChar l1 with
    | none => none
    | some (_, l2) =>
      match span1 isWordDash l2 with
      | none => none
      | some (o, l3) =>
        match lit ['/'] l3 with
        | none => none
        | some l4 =>
          match span1 isWordDash l4 with
          | none => none
          | some (r, l5) =>
            match lit ['@'] l5 with
            | none => none
            | some l6 =>
              match span1 isHexLower l6 with
              | none => none
              | some (s, l7) =>
                match span1 isSpaceChar l7 with
                | none => none
                | some (_, l8) =>
                  match lit ['#'] l8 with
                  | none => none
                  | some l9 =>
                    let l10 := l9.dropWhile isSpaceChar
                    let l11 := if l10.head? = some 'v' then l10.tail else l10
                    match span1 isDigitDot l11 with
                    | none => none
                    | some (v, _) => some ⟨o, r, s, v⟩

/-- `re.search`: leftmost position at which the pattern matches. -/
def searchMatch : List Char → Option RefGroups
  | [] => none
  | c :: cs =>
    match matchAt (c :: cs) with
    | some g => some g
    | none => searchMatch cs

/-! ### The two substitutions of process_line

`re.sub(r'@([a-f0-9]+)', f'@{latest_sha}', line)` and
`re.sub(r'#\s*v?[\d.]+', f'# v{latest_version}', line)`
(src/update.py:319-320).  Python re.sub with no count replaces every
non-overlapping occurrence, scanning left to right. -/

/-- Whether the hash pattern can match here: at least one hex digit follows. -/
def hexFollows : List Char → Bool
  | [] => false
  | c :: _ => isHexLower c

/-- The left-to-right scan of `re.sub(r'@([a-f0-9]+)', ...)`: when `skip` is
set we are consuming the hex run of a replacement just emitted.  At `@` with a
hex digit after it, emit `@` plus the replacement and skip the run; otherwise
copy the character. -/
def subHashAux (new : List Char) : Bool → List Char → List Char
  | _, [] => []
  | true, c :: rest =>
    if isHexLower c then subHashAux new true rest
    else if c = '@' && hexFollows rest then '@' :: (new ++ subHashAux new true rest)
    else c :: subHashAux new false rest
  | false, c :: rest =>
    if c = '@' && hexFollows rest then '@' :: (new ++ subHashAux new true rest)
    else c :: subHashAux new false rest

/-- Replace every occurrence of `@` followed by a nonempty lowercase-hex run. -/
def subHash (new : List Char) (l : List Char) : List Char :=
  subHashAux new false l

/-- Whether the version-comment pattern `\s*v?[\d.]+` matches at this point
(just after a `#`): optional whitespace, optional `v`, then at least one digit
or dot.  A `v` followed by no digit or dot fails both with and without the
optional `v`, exactly as regex backtracking does. -/
def verMatches (rest : List Char) : Bool :=
  !((if (rest.dropWhile isSpaceChar).head? = some 'v'
     then (rest.dropWhile isSpaceChar).tail
     else rest.dropWhile isSpaceChar).takeWhile isDigitDot).isEmpty

/-- Scanner mode for subVer: copying normally, consuming the whitespace of a
replaced match, or consuming its digit-and-dot tail. -/
inductive VerMode where
  | normal
  | skipWs
  | skipDigits
  deriving Repr, DecidableEq

/-- The left-to-right scan of `re.sub(r'#\s*v?[\d.]+', ...)`: at a `#` whose
tail matches the pattern, emit the canonical `# v` plus the replacement and
consume the matched region (maximal whitespace, optional `v`, maximal
digit-dot run); otherwise copy the character. -/
def subVerAux (ver : List Char) : VerMode → List Char → List Char
  | _, [] => []
  | .skipWs, c :: rest =>
    if isSpaceChar c then subVerAux ver .skipWs rest
    else if c = 'v' then subVerAux ver .skipDigits rest
    else if isDigitDot c then subVerAux ver .skipDigits rest
    else if c = '#' && verMatches rest then
      '#' :: ' ' :: 'v' :: (ver ++ subVerAux ver .skipWs rest)
    else c :: subVerAux ver .normal rest
  | .skipDigits, c :: rest =>
    if isDigitDot c then subVerAux ver .skipDigits rest
    else if c = '#' && verMatches rest then
      '#' :: ' ' :: 'v' :: (ver ++ subVerAux ver .skipWs rest)
    else c :: subVerAux ver .normal rest
  | .normal, c :: rest =>
    if c = '#' && verMatches rest then
      '#' :: ' ' :: 'v' :: (ver ++ subVerAux ver .skipWs rest)
    else c :: subVerAux ver .normal rest

/-- Replace every occurrence of `#`, optional whitespace, optional `v`, and a
nonempty digit-or-dot run, by the canonical comment `# v` plus the version. -/
def subVer (ver : List Char) (l : List Char) : List Char :=
  subVerAux ver .normal l

/-! ### Version parsing and comparison

process_line compares versions with `packaging.version.parse` (modern
packaging: invalid strings raise InvalidVersion, a ValueError).  Modelled from
the dependency's documented grammar (PEP 440), restricted to the
`[epoch!]release` forms `N!N(.N)*` / `N(.N)*`; every other string is treated
as invalid (InvalidVersion), which matches the real library on all strings
appearing in this development.  Comparison is by epoch, then by the release
components compared lexicographically with zero padding. -/

/-- Split a character list on dots; dots are separators and are dropped. -/
def splitDots : List Char → List (List Char)
  | [] => [[]]
  | c :: rest =>
    match splitDots rest with
    | [] => [[]]
    | g :: gs => if c = '.' then [] :: g :: gs else (c :: g) :: gs

/-- Decimal value of a digit string. -/
def digitsToNat (l : List Char) : Nat :=
  l.foldl (fun a c => a * 10 + (c.toNat - 48)) 0

/-- A PEP 440 release segment: dot-separated nonempty digit groups. -/
def parseRelease (l : List Char) : Option (List Nat) :=
  let parts := splitDots l
  if parts.all (fun p => !p.isEmpty && p.all Char.isDigit) then
    some (parts.map digitsToNat)
  else none

structure PyVersion where
  epoch : Nat
  release : List Nat
  deriving Repr, DecidableEq

/-- Modelled from packaging.version.parse (see the section comment): an
optional `N!` epoch followed by a release segment; otherwise invalid. -/
def version_parse (s : List Char) : Option PyVersion :=
  if s.any (fun c => c = '!') then
    let e := s.takeWhile (fun c => c ≠ '!')
    let r := (s.dropWhile (fun c => c ≠ '!')).drop 1
    if !e.isEmpty && e.all Char.isDigit then
      match parseRelease r with
      | some rel => some ⟨digitsToNat e, rel⟩
      | none => none
    else none
  else
    match parseRelease s with
    | some rel => some ⟨0, rel⟩
    | none => none

/-- Lexicographic comparison of release component lists, a missing trailing
component counting as zero (equivalently, packaging's comparison of release
tuples with trailing zeros stripped).  An exhausted left list is less than
the rest of the right list exactly when a nonzero component remains. -/
def relLt : List Nat → List Nat → Bool
  | [], ys => ys.any (fun y => 0 < y)
  | x :: xs, [] => if 0 < x then false else relLt xs []
  | x :: xs, y :: ys => if x < y then true else if y < x then false else relLt xs ys

/-- `packaging` strict order on the modelled versions. -/
def pyLt (a b : PyVersion) : Bool :=
  if a.epoch < b.epoch then true
  else if b.epoch < a.epoch then false
  else relLt a.release b.release

/-- Normalization of the resolved tag (src/update.py:308-309):
`latest_version.lower().startswith('v')` strips one leading v or V. -/
def stripLeadingV (s : List Char) : List Char :=
  match s with
  | [] => []
  | c :: rest => if c = 'v' ∨ c = 'V' then rest else c :: rest

/-! ### Version resolver: cache, rate-limit guard, network oracle

get_latest_version / check_rate_limit / get_cached_version /
execute_github_request / handle_http_error / handle_version_response /
handle_rate_limit (src/update.py:91-242).  The network is an oracle mapping
(owner, repo) to the outcome of the HTTP GET; time.time() is the `now`
parameter; time.sleep is recorded in the `slept` field. -/

/-- Outcome of the HTTP GET in execute_github_request, as the Python code can
observe it: 200 with a parsed tag list (name, commit.sha), 200 with a
malformed body, an HTTP error with status and rate-limit headers, or a
transport-level exception. -/
inductive NetResponse where
  | ok (tags : List (String × String))
  | okMalformed
  | httpError (status : Nat) (remaining : Nat) (reset : Nat)
  | connectionError
  | timeout
  | otherError
  deriving Repr, DecidableEq

/-- The process-wide mutable state: version_cache and rate_limit_exceeded
(src/update.py:60-61).  The cache is an association list; insertion conses,
so lookup sees the most recent binding, like a dict assignment. -/
structure ResolverState where
  cache : List ((String × String) × (String × String))
  rate_limit_exceeded : Bool
  deriving Repr, DecidableEq

/-- check_rate_limit (src/update.py:118-132). -/
def check_rate_limit (st : ResolverState) : Bool :=
  st.rate_limit_exceeded

/-- get_cached_version (src/update.py:135-146). -/
def get_cached_version (st : ResolverState) (owner repo : String) : Option (String × String) :=
  st.cache.lookup (owner, repo)

/-- handle_rate_limit (src/update.py:224-242): returns the new flag value and
the slept duration.  remaining = 0: wait max(0, reset - now) then clear the
flag; otherwise set the flag. -/
def handle_rate_limit (remaining reset now : Nat) : Bool × Nat :=
  if remaining = 0 then (false, reset - now)
  else (true, 0)

structure ResolveResult where
  value : Option (String × String)
  state : ResolverState
  netCalls : Nat
  slept : Nat
  log : List String
  deriving Repr, DecidableEq

/-- get_latest_version (src/update.py:91-115) together with
execute_github_request, handle_http_error, handle_version_response and
handle_rate_limit.  `.error ()` is the sys.exit(1) on HTTP 401. -/
def get_latest_version (net : String → String → NetResponse) (now : Nat)
    (owner repo : String) (st : ResolverState) : Except Unit ResolveResult :=
  if check_rate_limit st then .ok ⟨none, st, 0, 0, []⟩
  else
    match get_cached_version st owner repo with
    | some vs => .ok ⟨some vs, st, 0, 0, []⟩
    | none =>
      match net owner repo with
      | .ok tags =>
        match tags with
        | [] => .ok ⟨none, st, 1, 0, []⟩
        | (name, sha) :: _ =>
          .ok ⟨some (name, sha),
               ⟨((owner, repo), (name, sha)) :: st.cache, st.rate_limit_exceeded⟩, 1, 0, []⟩
      | .okMalformed => .ok ⟨none, st, 1, 0, ["json_parse_error"]⟩
      | .httpError status remaining reset =>
        if status = 401 then .error ()
        else if status = 403 then
          match handle_rate_limit remaining reset now with
          | (flag, slept) => .ok ⟨none, ⟨st.cache, flag⟩, 1, slept, ["rate_limit"]⟩
        else .ok ⟨none, st, 1, 0, ["http_error"]⟩
      | .connectionError => .ok ⟨none, st, 1, 0, ["connection_error"]⟩
      | .timeout => .ok ⟨none, st, 1, 0, ["timeout"]⟩
      | .otherError => .ok ⟨none, st, 1, 0, ["request_error"]⟩

/-! ### process_line -/

/-- Exceptions that can escape process_line: the TypeError from unpacking a
None return of get_latest_version (src/update.py:305), the InvalidVersion
raised by version.parse on a malformed string (src/update.py:312), and the
SystemExit from sys.exit(1) on HTTP 401 (src/update.py:192). -/
inductive PyExn where
  | typeError
  | invalidVersion
  | systemExit
  deriving Repr, DecidableEq

structure LineResult where
  line : List Char
  changed : Bool
  state : ResolverState
  netCalls : Nat
  deriving Repr, DecidableEq

/-- process_line (src/update.py:280-323). -/
def process_line (net : String → String → NetResponse) (now : Nat) (dry_run : Bool)
    (line : List Char) (st : ResolverState) : Except PyExn LineResult :=
  match searchMatch line with
  | none => .ok ⟨line, false, st, 0⟩
  | some g =>
    match get_latest_version net now (String.mk g.owner) (String.mk g.repo) st with
    | .error _ => .error .systemExit
    | .ok res =>
      match res.value with
      | none => .error .typeError
      | some (tag, nsha) =>
        let lv := stripLeadingV tag.data
        if lv.isEmpty || nsha.data.isEmpty then .ok ⟨line, false, res.state, res.netCalls⟩
        else
          match version_parse lv with
          | none => .error .invalidVersion
          | some latest =>
            match version_parse g.ver with
            | none => .error .invalidVersion
            | some current =>
              if pyLt current latest then
                if dry_run then .ok ⟨line, true, res.state, res.netCalls⟩
                else .ok ⟨subVer lv (subHash nsha.data line), true, res.state, res.netCalls⟩
              else .ok ⟨line, false, res.state, res.netCalls⟩

/-! ### File updater and orchestrator

update_action_version / finalize_update / create_backup / update_all_actions
(src/update.py:245-405).  The filesystem is an association list from paths to
raw character content; a path is a (directory, basename) pair, so
os.path.dirname / os.path.basename are projections.  I/O failures are
injected through an IOPlan: a write failure can happen at open (file intact)
or after k lines (file truncated, as open(..., 'w') truncates first). -/

structure PathName where
  dir : String
  base : String
  deriving Repr, DecidableEq

/-- os.path.join(os.path.dirname(p), "backups"), os.path.basename(p)
(src/update.py:366-368). -/
def backupPathOf (p : PathName) : PathName :=
  ⟨p.dir ++ "/backups", p.base⟩

abbrev FileSys := List (PathName × List Char)

def fsGet (fs : FileSys) (p : PathName) : Option (List Char) :=
  fs.lookup p

def fsSet (fs : FileSys) (p : PathName) (content : List Char) : FileSys :=
  (p, content) :: fs

inductive WriteOutcome where
  | success
  | failOpen
  | failAfter (k : Nat)
  deriving Repr, DecidableEq

/-- Injected I/O failures for one file's processing. -/
structure IOPlan where
  readFails : Bool
  backupFails : Bool
  write : WriteOutcome
  deriving Repr, DecidableEq

/-- Python readlines: split keeping the newline terminators. -/
def splitLines : List Char → List (List Char)
  | [] => []
  | c :: rest =>
    if c = '\n' then ['\n'] :: splitLines rest
    else
      match splitLines rest with
      | [] => [[c]]
      | l :: ls => (c :: l) :: ls

/-- Python writelines: concatenation. -/
def joinLines (ls : List (List Char)) : List Char :=
  ls.foldr (fun a b => a ++ b) []

structure Stats where
  total_files : Nat
  files_updated : Nat
  total_changes : Nat
  deriving Repr, DecidableEq

/-- create_backup (src/update.py:357-373).  Any failure (including a missing
source file) is caught inside the function, logged, and swallowed. -/
def create_backup (plan : IOPlan) (fs : FileSys) (p : PathName) : FileSys × List String :=
  if plan.backupFails then (fs, ["backup_error"])
  else
    match fsGet fs p with
    | some content => (fsSet fs (backupPathOf p) content, [])
    | none => (fs, ["backup_error"])

/-- finalize_update (src/update.py:326-354). -/
def finalize_update (plan : IOPlan) (fs : FileSys) (p : PathName)
    (updated_lines : List (List Char)) (changed : Bool) (changes_made : Nat)
    (dry_run backup : Bool) (stats : Stats) : FileSys × Stats × List String :=
  if changed then
    let stats' := { stats with files_updated := stats.files_updated + 1,
                               total_changes := stats.total_changes + changes_made }
    if dry_run then (fs, stats', [])
    else
      match (if backup then create_backup plan fs p else (fs, [])) with
      | (fs1, log1) =>
        match plan.write with
        | .success => (fsSet fs1 p (joinLines updated_lines), stats', log1)
        | .failOpen => (fs1, stats', log1 ++ ["write_error"])
        | .failAfter k =>
            (fsSet fs1 p (joinLines (updated_lines.take k)), stats', log1 ++ ["write_error"])
  else (fs, stats, [])

/-- The per-line loop of update_action_version (src/update.py:267-272):
returns the updated lines, the changed flag, changes_made, the final resolver
state and the number of network calls made. -/
def processLines (net : String → String → NetResponse) (now : Nat) (dry_run : Bool) :
    List (List Char) → ResolverState →
    Except PyExn (List (List Char) × Bool × Nat × ResolverState × Nat)
  | [], st => .ok ⟨[], false, 0, st, 0⟩
  | l :: ls, st =>
    match process_line net now dry_run l st with
    | .error e => .error e
    | .ok r =>
      match processLines net now dry_run ls r.state with
      | .error e => .error e
      | .ok ⟨ls', ch, cnt, st', n⟩ =>
        .ok ⟨r.line :: ls', r.changed || ch, (if r.changed then 1 else 0) + cnt, st', r.netCalls + n⟩

structure FileOutcome where
  fs : FileSys
  stats : Stats
  state : ResolverState
  changes : Nat
  log : List String
  deriving Repr, DecidableEq

/-- update_action_version (src/update.py:245-277).  Its try/except absorbs
IOError and OSError from the read (and from finalize_update, which already
catches its own write errors); the exceptions of PyExn are not IOError or
OSError and propagate. -/
def update_action_version (net : String → String → NetResponse) (now : Nat)
    (dry_run backup : Bool) (plan : IOPlan) (fs : FileSys) (p : PathName)
    (st : ResolverState) (stats : Stats) : Except PyExn FileOutcome :=
  if plan.readFails then .ok ⟨fs, stats, st, 0, ["file_error"]⟩
  else
    match fsGet fs p with
    | none => .ok ⟨fs, stats, st, 0, ["file_error"]⟩
    | some content =>
      match processLines net now dry_run (splitLines content) st with
      | .error e => .error e
      | .ok ⟨lines', changed, cnt, st', _⟩ =>
        match finalize_update plan fs p lines' changed cnt dry_run backup stats with
        | (fs', stats', log) => .ok ⟨fs', stats', st', cnt, log⟩

/-- update_all_actions (src/update.py:376-405), with the walk already
performed: the candidate files are given in traversal order, each with its
injected I/O plan.  An uncaught exception from a file aborts the whole run. -/
def update_all_actions (net : String → String → NetResponse) (now : Nat)
    (dry_run backup : Bool) (plans : PathName → IOPlan) :
    List PathName → FileSys → ResolverState → Stats →
    Except PyExn (FileSys × ResolverState × Stats)
  | [], fs, st, stats => .ok (fs, st, stats)
  | p :: ps, fs, st, stats =>
    let stats1 := { stats with total_files := stats.total_files + 1 }
    match update_action_version net now dry_run backup (plans p) fs p st stats1 with
    | .error e => .error e
    | .ok r => update_all_actions net now dry_run backup plans ps r.fs r.state r.stats

/-! ### Helper notions for the universal theorems -/

/-- The list does not begin with a character satisfying p (so a maximal
p-run ends exactly here). -/
def notStartsB (p : Char → Bool) : List Char → Bool
  | [] => true
  | c :: _ => !p c

/-- The canonical text of a matched reference after the literal `uses:`:
whitespace, owner, `/`, repo, `@`, hash, whitespace, `#`, optional
whitespace, an optional `v`, the version digits, and arbitrary trailing
text. -/
def refTail (sp1 o r s sp2 sp3 optv d tl : List Char) : List Char :=
  sp1 ++ (o ++ ('/' :: (r ++ ('@' :: (s ++ (sp2 ++ ('#' :: (sp3 ++ (optv ++ (d ++ tl))))))))))

/-- A full line holding a reference: leading text, the `uses:` token, and the
reference tail. -/
def refLine (ws sp1 o r s sp2 sp3 optv d tl : List Char) : List Char :=
  ws ++ ('u' :: 's' :: 'e' :: 's' :: ':' :: refTail sp1 o r s sp2 sp3 optv d tl)

/-! ### Character-class facts -/

theorem space_cases {c : Char} (h : isSpaceChar c = true) :
    c = ' ' ∨ c = '\t' ∨ c = '\n' ∨ c = '\r' ∨ c = '\x0b' ∨ c = '\x0c' := by
  have h2 := h
  simp only [isSpaceChar, Bool.or_eq_true, decide_eq_true_eq] at h2
  tauto

theorem space_not_wordDash {c : Char} (h : isSpaceChar c = true) : isWordDash c = false := by
  rcases space_cases h with h | h | h | h | h | h <;> subst h <;> decide

theorem space_not_hex {c : Char} (h : isSpaceChar c = true) : isHexLower c = false := by
  rcases space_cases h with h | h | h | h | h | h <;> subst h <;> decide

theorem space_not_digitDot {c : Char} (h : isSpaceChar c = true) : isDigitDot c = false := by
  rcases space_cases h with h | h | h | h | h | h <;> subst h <;> decide

theorem space_ne {c d : Char} (h : isSpaceChar c = true) (hd : isSpaceChar d = false) :
    c ≠ d := by
  intro he
  rw [he, hd] at h
  exact Bool.noConfusion h

theorem ne_of_class {p : Char → Bool} {c d : Char} (h : p c = true) (hd : p d = false) :
    c ≠ d := by
  intro he
  rw [he, hd] at h
  exact Bool.noConfusion h

theorem class_excl {p q : Char → Bool} {c : Char}
    (hpq : ∀ x, q x = true → p x = false) (h : p c = true) : q c = false := by
  cases hq : q c
  · rfl
  · rw [hpq c hq] at h
    exact Bool.noConfusion h

theorem wordDash_not_space {c : Char} (h : isWordDash c = true) : isSpaceChar c = false :=
  class_excl (fun _ hx => space_not_wordDash hx) h

theorem hex_not_space {c : Char} (h : isHexLower c = true) : isSpaceChar c = false :=
  class_excl (fun _ hx => space_not_hex hx) h

theorem digitDot_not_space {c : Char} (h : isDigitDot c = true) : isSpaceChar c = false :=
  class_excl (fun _ hx => space_not_digitDot hx) h

/-! ### Facts about lit, span1, notStartsB -/

theorem lit_append (pat rest : List Char) : lit pat (pat ++ rest) = some rest := by
  induction pat with
  | nil => rfl
  | cons p ps ih => simp [lit, ih]

theorem lit_none_of_ne {p : Char} {ps : List Char} {c : Char} {cs : List Char} (h : c ≠ p) :
    lit (p :: ps) (c :: cs) = none := by
  simp [lit, h]

theorem lit_decomp : ∀ {pat l rest : List Char}, lit pat l = some rest → l = pat ++ rest
  | [], l, rest, h => by
    simp only [lit, Option.some.injEq] at h
    simp [h]
  | _ :: _, [], _, h => by simp [lit] at h
  | p :: ps, c :: cs, rest, h => by
    by_cases hc : c = p
    · subst hc
      have := lit_decomp (by simpa [lit] using h)
      simp [this]
    · simp [lit, hc] at h

theorem takeWhile_nil_of_notStarts {p : Char → Bool} {ys : List Char}
    (h : notStartsB p ys = true) : ys.takeWhile p = [] := by
  cases ys with
  | nil => rfl
  | cons c cs =>
    simp only [notStartsB, Bool.not_eq_true'] at h
    simp [List.takeWhile_cons, h]

theorem dropWhile_self_of_notStarts {p : Char → Bool} {ys : List Char}
    (h : notStartsB p ys = true) : ys.dropWhile p = ys := by
  cases ys with
  | nil => rfl
  | cons c cs =>
    simp only [notStartsB, Bool.not_eq_true'] at h
    simp [List.dropWhile_cons, h]

theorem span1_eq {p : Char → Bool} {xs ys : List Char} (hne : xs ≠ [])
    (hall : ∀ c ∈ xs, p c = true) (hy : notStartsB p ys = true) :
    span1 p (xs ++ ys) = some (xs, ys) := by
  unfold span1
  rw [List.takeWhile_append_of_pos hall, List.dropWhile_append_of_pos hall,
      takeWhile_nil_of_notStarts hy, dropWhile_self_of_notStarts hy, List.append_nil]
  cases xs with
  | nil => exact absurd rfl hne
  | cons a as => simp

theorem notStarts_of_head {p q : Char → Bool} {xs ys : List Char} (hne : xs ≠ [])
    (hall : ∀ c ∈ xs, q c = true) (hpq : ∀ c, q c = true → p c = false) :
    notStartsB p (xs ++ ys) = true := by
  cases xs with
  | nil => exact absurd rfl hne
  | cons a as =>
    simp only [List.cons_append, notStartsB, Bool.not_eq_true']
    exact hpq a (hall a (by simp))

/-! ### Computing matchAt and searchMatch on canonical reference lines -/

theorem matchAt_canonical {sp1 o r s sp2 sp3 optv d tl : List Char}
    (h1n : sp1 ≠ []) (h1 : ∀ c ∈ sp1, isSpaceChar c = true)
    (h2n : o ≠ []) (h2 : ∀ c ∈ o, isWordDash c = true)
    (h3n : r ≠ []) (h3 : ∀ c ∈ r, isWordDash c = true)
    (h4n : s ≠ []) (h4 : ∀ c ∈ s, isHexLower c = true)
    (h5n : sp2 ≠ []) (h5 : ∀ c ∈ sp2, isSpaceChar c = true)
    (h6 : ∀ c ∈ sp3, isSpaceChar c = true)
    (h7 : optv = [] ∨ optv = ['v'])
    (h8n : d ≠ []) (h8 : ∀ c ∈ d, isDigitDot c = true)
    (h9 : notStartsB isDigitDot tl = true) :
    matchAt ('u' :: 's' :: 'e' :: 's' :: ':' :: refTail sp1 o r s sp2 sp3 optv d tl) =
      some ⟨o, r, s, d⟩ := by
  obtain ⟨a, as, rfl⟩ : ∃ a as, o = a :: as := by
    cases o with
    | nil => exact absurd rfl h2n
    | cons a as => exact ⟨a, as, rfl⟩
  obtain ⟨b, bs, rfl⟩ : ∃ b bs, r = b :: bs := by
    cases r with
    | nil => exact absurd rfl h3n
    | cons b bs => exact ⟨b, bs, rfl⟩
  obtain ⟨e, es, rfl⟩ : ∃ e es, sp2 = e :: es := by
    cases sp2 with
    | nil => exact absurd rfl h5n
    | cons e es => exact ⟨e, es, rfl⟩
  obtain ⟨f, fs, rfl⟩ : ∃ f fs, d = f :: fs := by
    cases d with
    | nil => exact absurd rfl h8n
    | cons f fs => exact ⟨f, fs, rfl⟩
  have hlit1 : lit ['u', 's', 'e', 's', ':']
      ('u' :: 's' :: 'e' :: 's' :: ':' :: refTail sp1 (a :: as) (b :: bs) s (e :: es) sp3 optv
        (f :: fs) tl) = some (refTail sp1 (a :: as) (b :: bs) s (e :: es) sp3 optv (f :: fs) tl) :=
    lit_append _ _
  have hsp1 : span1 isSpaceChar (refTail sp1 (a :: as) (b :: bs) s (e :: es) sp3 optv (f :: fs) tl) =
      some (sp1, (a :: as) ++ ('/' :: ((b :: bs) ++ ('@' :: (s ++ ((e :: es) ++
        ('#' :: (sp3 ++ (optv ++ ((f :: fs) ++ tl)))))))))) :=
    span1_eq h1n h1 (notStarts_of_head (by simp) h2 (fun _ hx => wordDash_not_space hx))
  have ho : span1 isWordDash ((a :: as) ++ ('/' :: ((b :: bs) ++ ('@' :: (s ++ ((e :: es) ++
      ('#' :: (sp3 ++ (optv ++ ((f :: fs) ++ tl)))))))))) =
      some (a :: as, '/' :: ((b :: bs) ++ ('@' :: (s ++ ((e :: es) ++
        ('#' :: (sp3 ++ (optv ++ ((f :: fs) ++ tl))))))))) :=
    span1_eq (by simp) h2 (by simp [notStartsB, isWordDash])
  have hr : span1 isWordDash ((b :: bs) ++ ('@' :: (s ++ ((e :: es) ++
      ('#' :: (sp3 ++ (optv ++ ((f :: fs) ++ tl)))))))) =
      some (b :: bs, '@' :: (s ++ ((e :: es) ++ ('#' :: (sp3 ++ (optv ++ ((f :: fs) ++ tl))))))) :=
    span1_eq (by simp) h3 (by simp [notStartsB, isWordDash])
  have hs : span1 isHexLower (s ++ ((e :: es) ++ ('#' :: (sp3 ++ (optv ++ ((f :: fs) ++ tl)))))) =
      some (s, (e :: es) ++ ('#' :: (sp3 ++ (optv ++ ((f :: fs) ++ tl))))) :=
    span1_eq h4n h4 (notStarts_of_head (by simp) h5 (fun _ hx => space_not_hex hx))
  have hsp2 : span1 isSpaceChar ((e :: es) ++ ('#' :: (sp3 ++ (optv ++ ((f :: fs) ++ tl))))) =
      some (e :: es, '#' :: (sp3 ++ (optv ++ ((f :: fs) ++ tl)))) :=
    span1_eq (by simp) h5 (by simp [notStartsB, isSpaceChar])
  have hdropA : List.dropWhile isSpaceChar (sp3 ++ (optv ++ ((f :: fs) ++ tl))) =
      optv ++ ((f :: fs) ++ tl) := by
    rw [List.dropWhile_append_of_pos h6]
    rcases h7 with h7 | h7 <;> subst h7
    · have hns : notStartsB isSpaceChar ([] ++ ((f :: fs) ++ tl)) = true := by
        simp only [List.nil_append, List.cons_append, notStartsB, Bool.not_eq_true']
        exact digitDot_not_space (h8 f (by simp))
      exact dropWhile_self_of_notStarts hns
    · have hns : notStartsB isSpaceChar (['v'] ++ ((f :: fs) ++ tl)) = true := rfl
      exact dropWhile_self_of_notStarts hns
  have hd : span1 isDigitDot ((f :: fs) ++ tl) = some (f :: fs, tl) :=
    span1_eq (by simp) h8 h9
  have hlitSlash : lit ['/'] ('/' :: ((b :: bs) ++ ('@' :: (s ++ ((e :: es) ++
      ('#' :: (sp3 ++ (optv ++ ((f :: fs) ++ tl))))))))) =
      some ((b :: bs) ++ ('@' :: (s ++ ((e :: es) ++
        ('#' :: (sp3 ++ (optv ++ ((f :: fs) ++ tl)))))))) := lit_append _ _
  have hlitAt : lit ['@'] ('@' :: (s ++ ((e :: es) ++
      ('#' :: (sp3 ++ (optv ++ ((f :: fs) ++ tl))))))) =
      some (s ++ ((e :: es) ++ ('#' :: (sp3 ++ (optv ++ ((f :: fs) ++ tl)))))) := lit_append _ _
  have hlitHash : lit ['#'] ('#' :: (sp3 ++ (optv ++ ((f :: fs) ++ tl)))) =
      some (sp3 ++ (optv ++ ((f :: fs) ++ tl))) := lit_append _ _
  rcases h7 with h7 | h7 <;> subst h7
  · have hheadne : (([] : List Char) ++ ((f :: fs) ++ tl)).head? ≠ some 'v' := by
      simp only [List.nil_append, List.cons_append, List.head?_cons, ne_eq, Option.some.injEq]
      exact ne_of_class (h8 f (by simp)) (show isDigitDot 'v' = false by decide)
    unfold matchAt
    rw [hlit1]
    simp only []
    rw [hsp1]
    simp only []
    rw [ho]
    simp only []
    rw [hlitSlash]
    simp only []
    rw [hr]
    simp only []
    rw [hlitAt]
    simp only []
    rw [hs]
    simp only []
    rw [hsp2]
    simp only []
    rw [hlitHash]
    simp only []
    rw [hdropA, if_neg hheadne]
    simp only [List.nil_append]
    rw [hd]
  · have hhead : ((['v'] : List Char) ++ ((f :: fs) ++ tl)).head? = some 'v' := rfl
    have htail : ((['v'] : List Char) ++ ((f :: fs) ++ tl)).tail = (f :: fs) ++ tl := rfl
    unfold matchAt
    rw [hlit1]
    simp only []
    rw [hsp1]
    simp only []
    rw [ho]
    simp only []
    rw [hlitSlash]
    simp only []
    rw [hr]
    simp only []
    rw [hlitAt]
    simp only []
    rw [hs]
    simp only []
    rw [hsp2]
    simp only []
    rw [hlitHash]
    simp only []
    rw [hdropA, if_pos hhead, htail, hd]

/-- The same canonical shape, but the version comment starts with a character
that is not whitespace, not `v`, and not a digit or dot (for instance an
uppercase `V`): the pattern does not match at this position. -/
theorem matchAt_canonical_badComment {sp1 o r s sp2 sp3 : List Char} {x : Char} {xs : List Char}
    (h1n : sp1 ≠ []) (h1 : ∀ c ∈ sp1, isSpaceChar c = true)
    (h2n : o ≠ []) (h2 : ∀ c ∈ o, isWordDash c = true)
    (h3n : r ≠ []) (h3 : ∀ c ∈ r, isWordDash c = true)
    (h4n : s ≠ []) (h4 : ∀ c ∈ s, isHexLower c = true)
    (h5n : sp2 ≠ []) (h5 : ∀ c ∈ sp2, isSpaceChar c = true)
    (h6 : ∀ c ∈ sp3, isSpaceChar c = true)
    (hx1 : isSpaceChar x = false) (hx2 : x ≠ 'v') (hx3 : isDigitDot x = false) :
    matchAt ('u' :: 's' :: 'e' :: 's' :: ':' ::
      (sp1 ++ (o ++ ('/' :: (r ++ ('@' :: (s ++ (sp2 ++ ('#' :: (sp3 ++ (x :: xs))))))))))) =
      none := by
  obtain ⟨a, as, rfl⟩ : ∃ a as, o = a :: as := by
    cases o with
    | nil => exact absurd rfl h2n
    | cons a as => exact ⟨a, as, rfl⟩
  obtain ⟨b, bs, rfl⟩ : ∃ b bs, r = b :: bs := by
    cases r with
    | nil => exact absurd rfl h3n
    | cons b bs => exact ⟨b, bs, rfl⟩
  obtain ⟨e, es, rfl⟩ : ∃ e es, sp2 = e :: es := by
    cases sp2 with
    | nil => exact absurd rfl h5n
    | cons e es => exact ⟨e, es, rfl⟩
  have hlit1 : lit ['u', 's', 'e', 's', ':']
      ('u' :: 's' :: 'e' :: 's' :: ':' ::
        (sp1 ++ ((a :: as) ++ ('/' :: ((b :: bs) ++ ('@' :: (s ++ ((e :: es) ++
          ('#' :: (sp3 ++ (x :: xs))))))))))) =
      some (sp1 ++ ((a :: as) ++ ('/' :: ((b :: bs) ++ ('@' :: (s ++ ((e :: es) ++
        ('#' :: (sp3 ++ (x :: xs)))))))))) := lit_append _ _
  have hsp1 : span1 isSpaceChar (sp1 ++ ((a :: as) ++ ('/' :: ((b :: bs) ++ ('@' :: (s ++
      ((e :: es) ++ ('#' :: (sp3 ++ (x :: xs)))))))))) =
      some (sp1, (a :: as) ++ ('/' :: ((b :: bs) ++ ('@' :: (s ++ ((e :: es) ++
        ('#' :: (sp3 ++ (x :: xs))))))))) :=
    span1_eq h1n h1 (notStarts_of_head (by simp) h2 (fun _ hx => wordDash_not_space hx))
  have ho : span1 isWordDash ((a :: as) ++ ('/' :: ((b :: bs) ++ ('@' :: (s ++ ((e :: es) ++
      ('#' :: (sp3 ++ (x :: xs))))))))) =
      some (a :: as, '/' :: ((b :: bs) ++ ('@' :: (s ++ ((e :: es) ++
        ('#' :: (sp3 ++ (x :: xs)))))))) :=
    span1_eq (by simp) h2 rfl
  have hr : span1 isWordDash ((b :: bs) ++ ('@' :: (s ++ ((e :: es) ++
      ('#' :: (sp3 ++ (x :: xs))))))) =
      some (b :: bs, '@' :: (s ++ ((e :: es) ++ ('#' :: (sp3 ++ (x :: xs)))))) :=
    span1_eq (by simp) h3 rfl
  have hs : span1 isHexLower (s ++ ((e :: es) ++ ('#' :: (sp3 ++ (x :: xs))))) =
      some (s, (e :: es) ++ ('#' :: (sp3 ++ (x :: xs)))) :=
    span1_eq h4n h4 (notStarts_of_head (by simp) h5 (fun _ hx => space_not_hex hx))
  have hsp2 : span1 isSpaceChar ((e :: es) ++ ('#' :: (sp3 ++ (x :: xs)))) =
      some (e :: es, '#' :: (sp3 ++ (x :: xs))) :=
    span1_eq (by simp) h5 rfl
  have hlitSlash : lit ['/'] ('/' :: ((b :: bs) ++ ('@' :: (s ++ ((e :: es) ++
      ('#' :: (sp3 ++ (x :: xs)))))))) =
      some ((b :: bs) ++ ('@' :: (s ++ ((e :: es) ++ ('#' :: (sp3 ++ (x :: xs))))))) :=
    lit_append _ _
  have hlitAt : lit ['@'] ('@' :: (s ++ ((e :: es) ++ ('#' :: (sp3 ++ (x :: xs)))))) =
      some (s ++ ((e :: es) ++ ('#' :: (sp3 ++ (x :: xs))))) := lit_append _ _
  have hlitHash : lit ['#'] ('#' :: (sp3 ++ (x :: xs))) = some (sp3 ++ (x :: xs)) :=
    lit_append _ _
  have hdropA : List.dropWhile isSpaceChar (sp3 ++ (x :: xs)) = x :: xs := by
    rw [List.dropWhile_append_of_pos h6]
    exact dropWhile_self_of_notStarts (by
      simp only [notStartsB, Bool.not_eq_true']
      exact hx1)
  have hheadne : (x :: xs).head? ≠ some 'v' := by
    simp only [List.head?_cons, ne_eq, Option.some.injEq]
    exact hx2
  have hspan : span1 isDigitDot (x :: xs) = none := by
    unfold span1
    rw [List.takeWhile_cons_of_neg (by simp [hx3])]
  unfold matchAt
  rw [hlit1]
  simp only []
  rw [hsp1]
  simp only []
  rw [ho]
  simp only []
  rw [hlitSlash]
  simp only []
  rw [hr]
  simp only []
  rw [hlitAt]
  simp only []
  rw [hs]
  simp only []
  rw [hsp2]
  simp only []
  rw [hlitHash]
  simp only []
  rw [hdropA, if_neg hheadne, hspan]

theorem matchAt_none_of_ne_u {c : Char} {cs : List Char} (h : c ≠ 'u') :
    matchAt (c :: cs) = none := by
  unfold matchAt
  rw [lit_none_of_ne h]

theorem searchMatch_cons_none {c : Char} {cs : List Char} (h : matchAt (c :: cs) = none) :
    searchMatch (c :: cs) = searchMatch cs := by
  show (match matchAt (c :: cs) with
        | some g => some g
        | none => searchMatch cs) = searchMatch cs
  rw [h]

theorem searchMatch_cons_some {c : Char} {cs : List Char} {g : RefGroups}
    (h : matchAt (c :: cs) = some g) : searchMatch (c :: cs) = some g := by
  show (match matchAt (c :: cs) with
        | some g => some g
        | none => searchMatch cs) = some g
  rw [h]

theorem searchMatch_space_append {ws l : List Char} (h : ∀ c ∈ ws, isSpaceChar c = true) :
    searchMatch (ws ++ l) = searchMatch l := by
  induction ws with
  | nil => simp
  | cons c cs ih =>
    have hcne : c ≠ 'u' := ne_of_class (h c (by simp)) (show isSpaceChar 'u' = false by decide)
    rw [List.cons_append, searchMatch_cons_none (matchAt_none_of_ne_u hcne)]
    exact ih (fun x hx => h x (by simp [hx]))

theorem matchAt_some_decomp {l : List Char} {g : RefGroups} (h : matchAt l = some g) :
    ∃ rest, l = 'u' :: 's' :: 'e' :: 's' :: ':' :: rest := by
  unfold matchAt at h
  cases hl : lit ['u', 's', 'e', 's', ':'] l with
  | none => rw [hl] at h; exact absurd h (by simp)
  | some l1 => exact ⟨l1, by simpa using lit_decomp hl⟩

theorem searchMatch_none_of_no_colon {l : List Char} (h : ∀ c ∈ l, c ≠ ':') :
    searchMatch l = none := by
  induction l with
  | nil => rfl
  | cons c cs ih =>
    cases hm : matchAt (c :: cs) with
    | some g =>
      obtain ⟨rest, heq⟩ := matchAt_some_decomp hm
      have hmem : ':' ∈ c :: cs := by rw [heq]; simp
      exact absurd rfl (h ':' hmem)
    | none =>
      rw [searchMatch_cons_none hm]
      exact ih (fun x hx => h x (by simp [hx]))

/-! ### Decomposition of the two substitutions -/

theorem subHashAux_true_skip {new h y : List Char} (hall : ∀ c ∈ h, isHexLower c = true) :
    subHashAux new true (h ++ y) = subHashAux new true y := by
  induction h with
  | nil => rfl
  | cons c cs ih =>
    rw [List.cons_append]
    simp only [subHashAux, hall c (by simp), if_true]
    exact ih (fun x hx => hall x (by simp [hx]))

theorem subHashAux_mode_exit {new y : List Char} (hy : notStartsB isHexLower y = true) :
    subHashAux new true y = subHashAux new false y := by
  cases y with
  | nil => rfl
  | cons c cs =>
    simp only [notStartsB, Bool.not_eq_true'] at hy
    simp only [subHashAux, hy]
    simp

theorem subHash_append_no_at {new xs ys : List Char} (h : ∀ c ∈ xs, c ≠ '@') :
    subHashAux new false (xs ++ ys) = xs ++ subHashAux new false ys := by
  induction xs with
  | nil => rfl
  | cons c cs ih =>
    have hc : (decide (c = '@') && hexFollows (cs ++ ys)) = false := by
      simp [h c (by simp)]
    rw [List.cons_append]
    simp only [subHashAux, hc]
    simp only [Bool.false_eq_true, if_false, List.cons_append, List.cons.injEq, true_and]
    exact ih (fun x hx => h x (by simp [hx]))

theorem subHash_id_no_at {new l : List Char} (h : ∀ c ∈ l, c ≠ '@') :
    subHashAux new false l = l := by
  have h2 := @subHash_append_no_at new l [] h
  simpa [subHashAux] using h2

theorem subHash_at_run {new h y : List Char} (hne : h ≠ [])
    (hall : ∀ c ∈ h, isHexLower c = true) (hy : notStartsB isHexLower y = true) :
    subHashAux new false ('@' :: (h ++ y)) = '@' :: (new ++ subHashAux new false y) := by
  cases h with
  | nil => exact absurd rfl hne
  | cons c cs =>
    have hstep : subHashAux new false ('@' :: ((c :: cs) ++ y)) =
        if hexFollows ((c :: cs) ++ y) = true then
          '@' :: (new ++ subHashAux new true ((c :: cs) ++ y))
        else '@' :: subHashAux new false ((c :: cs) ++ y) := rfl
    have hcond : hexFollows ((c :: cs) ++ y) = true := by
      simp [hexFollows, hall c (by simp)]
    rw [hstep, if_pos hcond, subHashAux_true_skip hall, subHashAux_mode_exit hy]

theorem subVerAux_skipWs_spaces {ver sp y : List Char} (h : ∀ c ∈ sp, isSpaceChar c = true) :
    subVerAux ver .skipWs (sp ++ y) = subVerAux ver .skipWs y := by
  induction sp with
  | nil => rfl
  | cons c cs ih =>
    rw [List.cons_append]
    simp only [subVerAux, h c (by simp), if_true]
    exact ih (fun x hx => h x (by simp [hx]))

theorem subVerAux_skipDigits_run {ver d y : List Char} (h : ∀ c ∈ d, isDigitDot c = true) :
    subVerAux ver .skipDigits (d ++ y) = subVerAux ver .skipDigits y := by
  induction d with
  | nil => rfl
  | cons c cs ih =>
    rw [List.cons_append]
    simp only [subVerAux, h c (by simp), if_true]
    exact ih (fun x hx => h x (by simp [hx]))

theorem subVerAux_skipDigits_exit {ver y : List Char} (hy : notStartsB isDigitDot y = true) :
    subVerAux ver .skipDigits y = subVerAux ver .normal y := by
  cases y with
  | nil => rfl
  | cons c cs =>
    simp only [notStartsB, Bool.not_eq_true'] at hy
    simp only [subVerAux, hy]
    simp

theorem subVer_append_no_hash {ver xs ys : List Char} (h : ∀ c ∈ xs, c ≠ '#') :
    subVerAux ver .normal (xs ++ ys) = xs ++ subVerAux ver .normal ys := by
  induction xs with
  | nil => rfl
  | cons c cs ih =>
    have hc : (decide (c = '#') && verMatches (cs ++ ys)) = false := by
      simp [h c (by simp)]
    rw [List.cons_append]
    simp only [subVerAux, hc]
    simp only [Bool.false_eq_true, if_false, List.cons_append, List.cons.injEq, true_and]
    exact ih (fun x hx => h x (by simp [hx]))

theorem subVer_id_no_hash {ver l : List Char} (h : ∀ c ∈ l, c ≠ '#') :
    subVerAux ver .normal l = l := by
  have h2 := @subVer_append_no_hash ver l [] h
  simpa [subVerAux] using h2

theorem verMatches_canonical {sp optv d y : List Char}
    (hsp : ∀ c ∈ sp, isSpaceChar c = true) (hopt : optv = [] ∨ optv = ['v'])
    (hdne : d ≠ []) (hd : ∀ c ∈ d, isDigitDot c = true) :
    verMatches (sp ++ (optv ++ (d ++ y))) = true := by
  obtain ⟨f, fs, rfl⟩ : ∃ f fs, d = f :: fs := by
    cases d with
    | nil => exact absurd rfl hdne
    | cons f fs => exact ⟨f, fs, rfl⟩
  rcases hopt with hopt | hopt <;> subst hopt
  · have hdrop : List.dropWhile isSpaceChar (sp ++ (([] : List Char) ++ ((f :: fs) ++ y))) =
        f :: (fs ++ y) := by
      rw [List.dropWhile_append_of_pos hsp]
      simp only [List.nil_append, List.cons_append]
      exact dropWhile_self_of_notStarts (by
        simp only [notStartsB, Bool.not_eq_true']
        exact digitDot_not_space (hd f (by simp)))
    have hne : (f :: (fs ++ y)).head? ≠ some 'v' := by
      simp only [List.head?_cons, ne_eq, Option.some.injEq]
      exact ne_of_class (hd f (by simp)) (show isDigitDot 'v' = false by decide)
    unfold verMatches
    rw [hdrop, if_neg hne]
    simp [List.takeWhile_cons_of_pos (hd f (by simp))]
  · have hdrop : List.dropWhile isSpaceChar (sp ++ ((['v'] : List Char) ++ ((f :: fs) ++ y))) =
        'v' :: ((f :: fs) ++ y) := by
      rw [List.dropWhile_append_of_pos hsp]
      exact dropWhile_self_of_notStarts rfl
    unfold verMatches
    rw [hdrop]
    simp only [List.head?_cons, if_pos rfl, List.tail_cons, List.cons_append]
    simp [List.takeWhile_cons_of_pos (hd f (by simp))]

theorem subVer_at_pattern {ver sp optv d y : List Char}
    (hsp : ∀ c ∈ sp, isSpaceChar c = true) (hopt : optv = [] ∨ optv = ['v'])
    (hdne : d ≠ []) (hd : ∀ c ∈ d, isDigitDot c = true)
    (hy : notStartsB isDigitDot y = true) :
    subVerAux ver .normal ('#' :: (sp ++ (optv ++ (d ++ y)))) =
      '#' :: ' ' :: 'v' :: (ver ++ subVerAux ver .normal y) := by
  obtain ⟨f, fs, rfl⟩ : ∃ f fs, d = f :: fs := by
    cases d with
    | nil => exact absurd rfl hdne
    | cons f fs => exact ⟨f, fs, rfl⟩
  have hstep : subVerAux ver .normal ('#' :: (sp ++ (optv ++ ((f :: fs) ++ y)))) =
      if verMatches (sp ++ (optv ++ ((f :: fs) ++ y))) = true then
        '#' :: ' ' :: 'v' :: (ver ++ subVerAux ver .skipWs (sp ++ (optv ++ ((f :: fs) ++ y))))
      else '#' :: subVerAux ver .normal (sp ++ (optv ++ ((f :: fs) ++ y))) := rfl
  rw [hstep, if_pos (verMatches_canonical hsp hopt hdne hd), subVerAux_skipWs_spaces hsp]
  rcases hopt with hopt | hopt <;> subst hopt
  · rw [List.nil_append, List.cons_append]
    have hf1 : isSpaceChar f = false := digitDot_not_space (hd f (by simp))
    have hf2 : f ≠ 'v' := ne_of_class (hd f (by simp)) (show isDigitDot 'v' = false by decide)
    have hf3 : isDigitDot f = true := hd f (by simp)
    have hstep2 : subVerAux ver .skipWs (f :: (fs ++ y)) =
        if isSpaceChar f = true then subVerAux ver .skipWs (fs ++ y)
        else if f = 'v' then subVerAux ver .skipDigits (fs ++ y)
        else if isDigitDot f = true then subVerAux ver .skipDigits (fs ++ y)
        else if (decide (f = '#') && verMatches (fs ++ y)) = true then
          '#' :: ' ' :: 'v' :: (ver ++ subVerAux ver .skipWs (fs ++ y))
        else f :: subVerAux ver .normal (fs ++ y) := rfl
    rw [hstep2, if_neg (by simp [hf1]), if_neg hf2, if_pos hf3,
        subVerAux_skipDigits_run (fun x hx => hd x (by simp [hx])),
        subVerAux_skipDigits_exit hy]
  · rw [List.cons_append, List.nil_append]
    have hstepv : subVerAux ver .skipWs ('v' :: ((f :: fs) ++ y)) =
        subVerAux ver .skipDigits ((f :: fs) ++ y) := rfl
    rw [hstepv, subVerAux_skipDigits_run hd, subVerAux_skipDigits_exit hy]

theorem subHash_cons_ne {new : List Char} {c : Char} {rest : List Char} (h : c ≠ '@') :
    subHashAux new false (c :: rest) = c :: subHashAux new false rest := by
  have hstep : subHashAux new false (c :: rest) =
      if (decide (c = '@') && hexFollows rest) = true then
        '@' :: (new ++ subHashAux new true rest)
      else c :: subHashAux new false rest := rfl
  rw [hstep, if_neg (by simp [h])]

theorem subVer_cons_ne {ver : List Char} {c : Char} {rest : List Char} (h : c ≠ '#') :
    subVerAux ver .normal (c :: rest) = c :: subVerAux ver .normal rest := by
  have hstep : subVerAux ver .normal (c :: rest) =
      if (decide (c = '#') && verMatches rest) = true then
        '#' :: ' ' :: 'v' :: (ver ++ subVerAux ver .skipWs rest)
      else c :: subVerAux ver .normal rest := rfl
  rw [hstep, if_neg (by simp [h])]

/-- Applying the hash substitution to a canonical reference line replaces
exactly the pinned hash. -/
theorem subHash_refLine {new ws sp1 o r s sp2 sp3 optv cv tl : List Char}
    (hws : ∀ c ∈ ws, isSpaceChar c = true)
    (h1 : ∀ c ∈ sp1, isSpaceChar c = true)
    (h2 : ∀ c ∈ o, isWordDash c = true)
    (h3 : ∀ c ∈ r, isWordDash c = true)
    (h4n : s ≠ []) (h4 : ∀ c ∈ s, isHexLower c = true)
    (h5n : sp2 ≠ []) (h5 : ∀ c ∈ sp2, isSpaceChar c = true)
    (h6 : ∀ c ∈ sp3, isSpaceChar c = true)
    (h7 : optv = [] ∨ optv = ['v'])
    (h8 : ∀ c ∈ cv, isDigitDot c = true)
    (h9 : ∀ c ∈ tl, c ≠ '@') :
    subHash new (refLine ws sp1 o r s sp2 sp3 optv cv tl) =
      refLine ws sp1 o r new sp2 sp3 optv cv tl := by
  have hA : ∀ c ∈ ws, c ≠ '@' :=
    fun c hc => ne_of_class (hws c hc) (show isSpaceChar '@' = false by decide)
  have hB : ∀ c ∈ sp1, c ≠ '@' :=
    fun c hc => ne_of_class (h1 c hc) (show isSpaceChar '@' = false by decide)
  have hC : ∀ c ∈ o, c ≠ '@' :=
    fun c hc => ne_of_class (h2 c hc) (show isWordDash '@' = false by decide)
  have hD : ∀ c ∈ r, c ≠ '@' :=
    fun c hc => ne_of_class (h3 c hc) (show isWordDash '@' = false by decide)
  have hyHex : notStartsB isHexLower (sp2 ++ ('#' :: (sp3 ++ (optv ++ (cv ++ tl))))) = true :=
    notStarts_of_head h5n h5 (fun _ hx => space_not_hex hx)
  have hyNoAt : ∀ c ∈ sp2 ++ ('#' :: (sp3 ++ (optv ++ (cv ++ tl)))), c ≠ '@' := by
    intro c hc
    rcases List.mem_append.mp hc with hc | hc
    · exact ne_of_class (h5 c hc) (show isSpaceChar '@' = false by decide)
    · rcases List.mem_cons.mp hc with hc | hc
      · subst hc; decide
      · rcases List.mem_append.mp hc with hc | hc
        · exact ne_of_class (h6 c hc) (show isSpaceChar '@' = false by decide)
        · rcases List.mem_append.mp hc with hc | hc
          · rcases h7 with h7 | h7 <;> subst h7
            · simp at hc
            · rcases List.mem_singleton.mp hc with rfl; decide
          · rcases List.mem_append.mp hc with hc | hc
            · exact ne_of_class (h8 c hc) (show isDigitDot '@' = false by decide)
            · exact h9 c hc
  unfold subHash refLine refTail
  rw [subHash_append_no_at hA,
      subHash_cons_ne (show ('u' : Char) ≠ '@' by decide),
      subHash_cons_ne (show ('s' : Char) ≠ '@' by decide),
      subHash_cons_ne (show ('e' : Char) ≠ '@' by decide),
      subHash_cons_ne (show ('s' : Char) ≠ '@' by decide),
      subHash_cons_ne (show (':' : Char) ≠ '@' by decide),
      subHash_append_no_at hB,
      subHash_append_no_at hC,
      subHash_cons_ne (show ('/' : Char) ≠ '@' by decide),
      subHash_append_no_at hD,
      subHash_at_run h4n h4 hyHex,
      subHash_id_no_at hyNoAt]

/-- Applying the version substitution to a canonical reference line
canonicalizes exactly the version comment. -/
theorem subVer_refLine {ver ws sp1 o r s sp2 sp3 optv cv tl : List Char}
    (hws : ∀ c ∈ ws, isSpaceChar c = true)
    (h1 : ∀ c ∈ sp1, isSpaceChar c = true)
    (h2 : ∀ c ∈ o, isWordDash c = true)
    (h3 : ∀ c ∈ r, isWordDash c = true)
    (h4 : ∀ c ∈ s, isHexLower c = true)
    (h5 : ∀ c ∈ sp2, isSpaceChar c = true)
    (h6 : ∀ c ∈ sp3, isSpaceChar c = true)
    (h7 : optv = [] ∨ optv = ['v'])
    (h8n : cv ≠ []) (h8 : ∀ c ∈ cv, isDigitDot c = true)
    (h9 : notStartsB isDigitDot tl = true)
    (h10 : ∀ c ∈ tl, c ≠ '#') :
    subVer ver (refLine ws sp1 o r s sp2 sp3 optv cv tl) =
      refLine ws sp1 o r s sp2 [' '] ['v'] ver tl := by
  have hA : ∀ c ∈ ws, c ≠ '#' :=
    fun c hc => ne_of_class (hws c hc) (show isSpaceChar '#' = false by decide)
  have hB : ∀ c ∈ sp1, c ≠ '#' :=
    fun c hc => ne_of_class (h1 c hc) (show isSpaceChar '#' = false by decide)
  have hC : ∀ c ∈ o, c ≠ '#' :=
    fun c hc => ne_of_class (h2 c hc) (show isWordDash '#' = false by decide)
  have hD : ∀ c ∈ r, c ≠ '#' :=
    fun c hc => ne_of_class (h3 c hc) (show isWordDash '#' = false by decide)
  have hE : ∀ c ∈ s, c ≠ '#' :=
    fun c hc => ne_of_class (h4 c hc) (show isHexLower '#' = false by decide)
  have hF : ∀ c ∈ sp2, c ≠ '#' :=
    fun c hc => ne_of_class (h5 c hc) (show isSpaceChar '#' = false by decide)
  unfold subVer refLine refTail
  rw [subVer_append_no_hash hA,
      subVer_cons_ne (show ('u' : Char) ≠ '#' by decide),
      subVer_cons_ne (show ('s' : Char) ≠ '#' by decide),
      subVer_cons_ne (show ('e' : Char) ≠ '#' by decide),
      subVer_cons_ne (show ('s' : Char) ≠ '#' by decide),
      subVer_cons_ne (show (':' : Char) ≠ '#' by decide),
      subVer_append_no_hash hB,
      subVer_append_no_hash hC,
      subVer_cons_ne (show ('/' : Char) ≠ '#' by decide),
      subVer_append_no_hash hD,
      subVer_cons_ne (show ('@' : Char) ≠ '#' by decide),
      subVer_append_no_hash hE,
      subVer_append_no_hash hF,
      subVer_at_pattern h6 h7 h8n h8 h9,
      subVer_id_no_hash h10]
  simp

/-! ### Comparison and resolver facts -/

theorem relLt_irrefl : ∀ l : List Nat, relLt l l = false
  | [] => rfl
  | x :: xs => by
    simp [relLt, Nat.lt_irrefl, relLt_irrefl xs]

theorem pyLt_irrefl (v : PyVersion) : pyLt v v = false := by
  unfold pyLt
  simp [Nat.lt_irrefl, relLt_irrefl]

/-- A resolution served from the cache: no network call, state unchanged. -/
theorem resolve_cache_hit {net : String → String → NetResponse} {now : Nat}
    {ow rp : String} {st : ResolverState} {vs : String × String}
    (hflag : st.rate_limit_exceeded = false) (hc : get_cached_version st ow rp = some vs) :
    get_latest_version net now ow rp st = .ok ⟨some vs, st, 0, 0, []⟩ := by
  unfold get_latest_version check_rate_limit
  rw [hflag]
  simp only [Bool.false_eq_true, if_false]
  rw [hc]

/-- process_line on a line whose reference resolves from the cache: the full
case analysis of the newer/not-newer decision. -/
theorem process_line_cached {net : String → String → NetResponse} {now : Nat} {dry : Bool}
    {line : List Char} {st : ResolverState} {ow rp sh cv : List Char} {tagS nshaS : String}
    {L C : PyVersion}
    (hm : searchMatch line = some ⟨ow, rp, sh, cv⟩)
    (hflag : st.rate_limit_exceeded = false)
    (hc : get_cached_version st (String.mk ow) (String.mk rp) = some (tagS, nshaS))
    (hnt : stripLeadingV tagS.data ≠ []) (hsha : nshaS.data ≠ [])
    (hpl : version_parse (stripLeadingV tagS.data) = some L)
    (hpc : version_parse cv = some C) :
    process_line net now dry line st =
      .ok ⟨if pyLt C L = true then
             (if dry then line else subVer (stripLeadingV tagS.data) (subHash nshaS.data line))
           else line,
           pyLt C L, st, 0⟩ := by
  unfold process_line
  rw [hm]
  simp only []
  rw [resolve_cache_hit hflag hc]
  simp only []
  have hempty : ((stripLeadingV tagS.data).isEmpty || nshaS.data.isEmpty) = false := by
    cases he : stripLeadingV tagS.data with
    | nil => exact absurd rfl (he ▸ hnt)
    | cons a as =>
      cases he2 : nshaS.data with
      | nil => exact absurd rfl (he2 ▸ hsha)
      | cons b bs => simp
  rw [if_neg (by simp [hempty])]
  rw [hpl, hpc]
  cases hlt : pyLt C L with
  | false => simp [hlt]
  | true => cases dry <;> simp [hlt]

/-- searchMatch on a canonical reference line finds the reference. -/
theorem searchMatch_refLine {ws sp1 o r s sp2 sp3 optv d tl : List Char}
    (hws : ∀ c ∈ ws, isSpaceChar c = true)
    (h1n : sp1 ≠ []) (h1 : ∀ c ∈ sp1, isSpaceChar c = true)
    (h2n : o ≠ []) (h2 : ∀ c ∈ o, isWordDash c = true)
    (h3n : r ≠ []) (h3 : ∀ c ∈ r, isWordDash c = true)
    (h4n : s ≠ []) (h4 : ∀ c ∈ s, isHexLower c = true)
    (h5n : sp2 ≠ []) (h5 : ∀ c ∈ sp2, isSpaceChar c = true)
    (h6 : ∀ c ∈ sp3, isSpaceChar c = true)
    (h7 : optv = [] ∨ optv = ['v'])
    (h8n : d ≠ []) (h8 : ∀ c ∈ d, isDigitDot c = true)
    (h9 : notStartsB isDigitDot tl = true) :
    searchMatch (refLine ws sp1 o r s sp2 sp3 optv d tl) = some ⟨o, r, s, d⟩ := by
  unfold refLine
  rw [searchMatch_space_append hws]
  exact searchMatch_cons_some
    (matchAt_canonical h1n h1 h2n h2 h3n h3 h4n h4 h5n h5 h6 h7 h8n h8 h9)

/-! ### Filesystem facts -/

theorem backupPathOf_ne (p : PathName) : backupPathOf p ≠ p := by
  intro h
  have hd : p.dir ++ "/backups" = p.dir := congrArg PathName.dir h
  have hlen := congrArg String.length hd
  rw [String.length_append] at hlen
  have h8 : ("/backups" : String).length = 8 := rfl
  rw [h8] at hlen
  omega

theorem fsGet_fsSet_self (fs : FileSys) (p : PathName) (c : List Char) :
    fsGet (fsSet fs p c) p = some c := by
  simp [fsGet, fsSet, List.lookup]

theorem fsGet_fsSet_ne (fs : FileSys) {p q : PathName} (c : List Char) (h : q ≠ p) :
    fsGet (fsSet fs q c) p = fsGet fs p := by
  simp only [fsGet, fsSet, List.lookup]
  have : (p == q) = false := by
    simp only [beq_eq_false_iff_ne, ne_eq]
    exact fun he => h he.symm
  rw [this]

/-- The changed flag accumulated by the per-line loop is set exactly when the
count of changed lines is nonzero. -/
theorem processLines_changed_iff {net : String → String → NetResponse} {now : Nat} {dry : Bool} :
    ∀ {ls : List (List Char)} {st : ResolverState} {ls' : List (List Char)} {ch : Bool}
      {cnt : Nat} {st' : ResolverState} {n : Nat},
      processLines net now dry ls st = .ok ⟨ls', ch, cnt, st', n⟩ → (ch = true ↔ cnt ≠ 0)
  | [], st, ls', ch, cnt, st', n => by
    intro h
    simp only [processLines, Except.ok.injEq, Prod.mk.injEq] at h
    obtain ⟨-, h2, h3, -, -⟩ := h
    subst h2
    subst h3
    simp
  | l :: ls, st, ls', ch, cnt, st', n => by
    intro h
    simp only [processLines] at h
    cases hpl : process_line net now dry l st with
    | error e => rw [hpl] at h; exact absurd h (by simp)
    | ok r =>
      rw [hpl] at h
      simp only [] at h
      cases hrest : processLines net now dry ls r.state with
      | error e => rw [hrest] at h; exact absurd h (by simp)
      | ok t =>
        obtain ⟨ls2, ch2, cnt2, st2, n2⟩ := t
        rw [hrest] at h
        simp only [Except.ok.injEq, Prod.mk.injEq] at h
        obtain ⟨-, h2, h3, -, -⟩ := h
        subst h2
        subst h3
        have ih := processLines_changed_iff hrest
        cases hrc : r.changed
        · simp only [hrc, Bool.false_or]
          rw [ih]
          simp
        · simp only [hrc, Bool.true_or, if_true]
          constructor
          · intro _
            omega
          · intro _
            trivial

/-! ### Concrete run fixtures shared by the counterexamples -/

/-- A network oracle on which every request fails with a connection error. -/
def netConnFail : String → String → NetResponse := fun _ _ => .connectionError

/-- An I/O plan with no injected failures. -/
def planOK : IOPlan := ⟨false, false, .success⟩

def pathA : PathName := ⟨".github/workflows", "ci.yml"⟩

/-! ## Claim theorems -/

/-- C1: the claim is right about the intended behavior but the code violates
it.  For a matched line whose (owner, repo) is uncached and whose resolution
hits a connection error, get_latest_version returns None (after printing the
diagnostic); the unpacking `latest_version, latest_sha = get_latest_version(...)`
at src/update.py:305 then raises a TypeError, which is neither IOError nor
OSError, so it escapes update_action_version's handler and reaches the
orchestrator, aborting the run — instead of the line being returned unchanged
and the run continuing. -/
theorem C1_network_failure_typeerror_reaches_orchestrator :
    update_all_actions netConnFail 0 false false (fun _ => planOK) [pathA]
      [(pathA, ("uses: acme/tool@deadbeef # v1.2.0\n").data)] ⟨[], false⟩ ⟨0, 0, 0⟩ =
      .error .typeError := by decide

/-- C2: the claim is right about the intended behavior but the code violates
it.  For a matched line whose declared version is `...` (matched by `[\d.]+`
but not a valid version) and whose reference resolves to a valid newer
version, `version.parse(current_version)` at src/update.py:312 raises
InvalidVersion (a ValueError), which no handler catches, so the run aborts —
instead of a diagnostic plus a 'not newer' result with the line unchanged. -/
theorem C2_malformed_version_raises_uncaught :
    update_all_actions netConnFail 0 false false (fun _ => planOK) [pathA]
      [(pathA, ("uses: acme/tool@deadbeef # ...\n").data)]
      ⟨[(("acme", "tool"), ("1.0", "cafe"))], false⟩ ⟨0, 0, 0⟩ =
      .error .invalidVersion := by decide

/-- C3 counterexample: with backup mode on, a failing backup step and a
succeeding write, create_backup swallows its own I/O error
(src/update.py:372-373) and finalize_update proceeds to overwrite the
original file; the file is not left in its original state and no backup
exists.  This falsifies the claim's 'a failed backup never leads to the
original being overwritten'. -/
theorem C3_failed_backup_still_overwrites :
    update_action_version netConnFail 0 false true ⟨false, true, .success⟩
      [(pathA, ("uses: acme/tool@deadbeef # v1.2.0\n").data)] pathA
      ⟨[(("acme", "tool"), ("v1.3.0", "cafebabe"))], false⟩ ⟨1, 0, 0⟩ =
      .ok ⟨[(pathA, ("uses: acme/tool@cafebabe # v1.3.0\n").data),
            (pathA, ("uses: acme/tool@deadbeef # v1.2.0\n").data)],
           ⟨1, 1, 1⟩, ⟨[(("acme", "tool"), ("v1.3.0", "cafebabe"))], false⟩, 1,
           ["backup_error"]⟩ ∧
    fsGet [(pathA, ("uses: acme/tool@cafebabe # v1.3.0\n").data),
           (pathA, ("uses: acme/tool@deadbeef # v1.2.0\n").data)] pathA =
      some ("uses: acme/tool@cafebabe # v1.3.0\n").data ∧
    fsGet [(pathA, ("uses: acme/tool@cafebabe # v1.3.0\n").data),
           (pathA, ("uses: acme/tool@deadbeef # v1.2.0\n").data)] (backupPathOf pathA) = none ∧
    ("uses: acme/tool@cafebabe # v1.3.0\n").data ≠
      ("uses: acme/tool@deadbeef # v1.2.0\n").data := by decide

/-- C4 counterexample: with the cache holding the PEP 440 tag `1!2` (an epoch)
for acme/tool, the first run rewrites the line to `... # v1!2`; on the second
run the regex extracts only `1` as the declared version, the comparison still
reports newer, and the substitution mangles the comment to `# v1!2!2`.  The
second run changes the line again, falsifying 'the second run produces zero
changed lines'. -/
theorem C4_counterexample_epoch_tag :
    process_line netConnFail 0 false ("uses: acme/tool@abc # v1.0").data
        ⟨[(("acme", "tool"), ("1!2", "def0"))], false⟩ =
      .ok ⟨("uses: acme/tool@def0 # v1!2").data, true,
           ⟨[(("acme", "tool"), ("1!2", "def0"))], false⟩, 0⟩ ∧
    process_line netConnFail 0 false ("uses: acme/tool@def0 # v1!2").data
        ⟨[(("acme", "tool"), ("1!2", "def0"))], false⟩ =
      .ok ⟨("uses: acme/tool@def0 # v1!2!2").data, true,
           ⟨[(("acme", "tool"), ("1!2", "def0"))], false⟩, 0⟩ ∧
    ("uses: acme/tool@def0 # v1!2").data ≠ ("uses: acme/tool@def0 # v1!2!2").data := by
  decide

/-- C5 counterexample: a failed resolution is not cached.  With an empty cache
and a network that fails, the first resolution makes one network call and
leaves the state unchanged (nothing cached), so a second line referencing the
same (owner, repo) makes a second network call — not 'exactly one network
call with the second resolution served from the Cache'. -/
theorem C5_failed_resolution_not_cached :
    get_latest_version netConnFail 0 "acme" "tool" ⟨[], false⟩ =
      .ok ⟨none, ⟨[], false⟩, 1, 0, ["connection_error"]⟩ ∧
    get_cached_version ⟨[], false⟩ "acme" "tool" = none := by decide

/-- C7: when backup mode is active, dry-run is off, at least one line changed,
and no I/O failure is injected, the backup copy under the sibling `backups`
directory holds exactly the original bytes (the content read before the
write), and the original path holds the written-out updated lines. -/
theorem C7_backup_holds_original_file_rewritten :
    ∀ (plan : IOPlan) (fs : FileSys) (p : PathName) (lines : List (List Char)) (cnt : Nat)
      (stats : Stats) (orig : List Char),
      plan.backupFails = false → plan.write = .success → fsGet fs p = some orig →
      fsGet (finalize_update plan fs p lines true cnt false true stats).1 (backupPathOf p) =
        some orig ∧
      fsGet (finalize_update plan fs p lines true cnt false true stats).1 p =
        some (joinLines lines) := by
  intro plan fs p lines cnt stats orig hb hw hg
  unfold finalize_update create_backup
  rw [hw, hb]
  simp only [Bool.false_eq_true, if_false, if_true, hg]
  constructor
  · rw [fsGet_fsSet_ne _ _ (Ne.symm (backupPathOf_ne p)), fsGet_fsSet_self]
  · rw [fsGet_fsSet_self]

/-- C8: the rate-limit guard.  Once the flag is set, every resolution call
returns none with zero network calls and the state unchanged (so the flag
stays set); handle_rate_limit sets the flag exactly when the remaining quota
is nonzero, and on hard exhaustion (remaining = 0) it sleeps
max(0, reset - now) seconds and clears the flag back to Normal — the only
transition that ever clears it. -/
theorem C8_guard_short_circuits_until_hard_wait :
    ∀ (net : String → String → NetResponse) (now : Nat) (ow rp : String)
      (st : ResolverState) (remaining reset : Nat),
      (st.rate_limit_exceeded = true →
        get_latest_version net now ow rp st = .ok ⟨none, st, 0, 0, []⟩) ∧
      (remaining ≠ 0 → handle_rate_limit remaining reset now = (true, 0)) ∧
      handle_rate_limit 0 reset now = (false, reset - now) := by
  intro net now ow rp st remaining reset
  refine ⟨fun hflag => ?_, fun hr => ?_, ?_⟩
  · unfold get_latest_version check_rate_limit
    rw [hflag]
    simp
  · unfold handle_rate_limit
    rw [if_neg hr]
  · unfold handle_rate_limit
    rw [if_pos rfl]

/-- C9 counterexample: the regex `#\s*v?([\d.]+)` in process_line is compiled
without re.IGNORECASE, so an uppercase `V` prefix in the version comment makes
the line not match at all, while the lowercase form matches — the matcher is
not case-insensitive for the `v` prefix. -/
theorem C9_uppercase_v_not_matched :
    searchMatch ("uses: actions/checkout@abc123 # V3.1").data = none ∧
    searchMatch ("uses: actions/checkout@abc123 # v3.1").data =
      some ⟨("actions").data, ("checkout").data, ("abc123").data, ("3.1").data⟩ := by decide

/-- C10 counterexample: the two re.sub calls at src/update.py:319-320 carry no
count, so they rewrite every `@`-hex run and every `#`-version pattern on the
line: the unrelated `@bb` and `# v9.9` later in the line are replaced too,
falsifying 'every character of the line outside those matched tokens …
is preserved verbatim'. -/
theorem C10_other_tokens_also_replaced :
    process_line netConnFail 0 false ("uses: acme/tool@aa # v1.0 x@bb # v9.9").data
        ⟨[(("acme", "tool"), ("2.0", "ccc"))], false⟩ =
      .ok ⟨("uses: acme/tool@ccc # v2.0 x@ccc # v2.0").data, true,
           ⟨[(("acme", "tool"), ("2.0", "ccc"))], false⟩, 0⟩ ∧
    ("uses: acme/tool@ccc # v2.0 x@ccc # v2.0").data ≠
      ("uses: acme/tool@ccc # v2.0 x@bb # v9.9").data := by decide

/-- C10 amended: the hash and version substitutions are global pattern
replacements: every `@` followed by a nonempty lowercase-hex run is replaced
by `@` plus the new hash, every `#` + whitespace + optional `v` + digit-dot
run is canonicalized to `# v` plus the new version, and all characters
outside these matched tokens are preserved verbatim. -/
theorem C10_substitutions_global_tokens_preserved_outside :
    (∀ (new xs h y : List Char), (∀ c ∈ xs, c ≠ '@') → h ≠ [] →
       (∀ c ∈ h, isHexLower c = true) → notStartsB isHexLower y = true →
       subHash new (xs ++ ('@' :: (h ++ y))) = xs ++ ('@' :: (new ++ subHash new y))) ∧
    (∀ (ver xs sp optv d y : List Char), (∀ c ∈ xs, c ≠ '#') →
       (∀ c ∈ sp, isSpaceChar c = true) → (optv = [] ∨ optv = ['v']) → d ≠ [] →
       (∀ c ∈ d, isDigitDot c = true) → notStartsB isDigitDot y = true →
       subVer ver (xs ++ ('#' :: (sp ++ (optv ++ (d ++ y))))) =
         xs ++ ('#' :: ' ' :: 'v' :: (ver ++ subVer ver y))) := by
  constructor
  · intro new xs h y hxs hne hall hy
    unfold subHash
    rw [subHash_append_no_at hxs, subHash_at_run hne hall hy]
  · intro ver xs sp optv d y hxs hsp hopt hdne hd hy
    unfold subVer
    rw [subVer_append_no_hash hxs, subVer_at_pattern hsp hopt hdne hd hy]

/-- C4 amended: idempotence holds whenever the resolved tag normalizes to a
plain dotted-numeric version (the shape the rewritten comment's regex group
recovers exactly).  For any canonical reference line whose (owner, repo) is
cached with such a tag and a nonempty lowercase-hex hash, and whose declared
version compares as older, the first run rewrites the line to the canonical
updated form, and a second run on the rewritten line with the same cache
compares equal ('not newer') and returns the line byte-identical with no
change counted. -/
theorem C4_second_run_rewrites_nothing
    (net : String → String → NetResponse) (now : Nat)
    (ws sp1 o r s sp2 sp3 optv cv tl : List Char) (st : ResolverState) (tagS nshaS : String)
    (L C : PyVersion)
    (hws : ∀ c ∈ ws, isSpaceChar c = true)
    (h1n : sp1 ≠ []) (h1 : ∀ c ∈ sp1, isSpaceChar c = true)
    (h2n : o ≠ []) (h2 : ∀ c ∈ o, isWordDash c = true)
    (h3n : r ≠ []) (h3 : ∀ c ∈ r, isWordDash c = true)
    (h4n : s ≠ []) (h4 : ∀ c ∈ s, isHexLower c = true)
    (h5n : sp2 ≠ []) (h5 : ∀ c ∈ sp2, isSpaceChar c = true)
    (h6 : ∀ c ∈ sp3, isSpaceChar c = true)
    (h7 : optv = [] ∨ optv = ['v'])
    (h8n : cv ≠ []) (h8 : ∀ c ∈ cv, isDigitDot c = true)
    (h9 : notStartsB isDigitDot tl = true)
    (h10 : ∀ c ∈ tl, c ≠ '@') (h11 : ∀ c ∈ tl, c ≠ '#')
    (hflag : st.rate_limit_exceeded = false)
    (hc : get_cached_version st (String.mk o) (String.mk r) = some (tagS, nshaS))
    (hntn : stripLeadingV tagS.data ≠ [])
    (hntd : ∀ c ∈ stripLeadingV tagS.data, isDigitDot c = true)
    (hshn : nshaS.data ≠ []) (hshx : ∀ c ∈ nshaS.data, isHexLower c = true)
    (hpl : version_parse (stripLeadingV tagS.data) = some L)
    (hpc : version_parse cv = some C)
    (hlt : pyLt C L = true) :
    process_line net now false (refLine ws sp1 o r s sp2 sp3 optv cv tl) st =
      .ok ⟨refLine ws sp1 o r nshaS.data sp2 [' '] ['v'] (stripLeadingV tagS.data) tl,
           true, st, 0⟩ ∧
    process_line net now false
        (refLine ws sp1 o r nshaS.data sp2 [' '] ['v'] (stripLeadingV tagS.data) tl) st =
      .ok ⟨refLine ws sp1 o r nshaS.data sp2 [' '] ['v'] (stripLeadingV tagS.data) tl,
           false, st, 0⟩ := by
  have hsp3' : ∀ c ∈ ([' '] : List Char), isSpaceChar c = true := by
    intro c hc2
    rcases List.mem_singleton.mp hc2 with rfl
    decide
  constructor
  · have hm1 := searchMatch_refLine hws h1n h1 h2n h2 h3n h3 h4n h4 h5n h5 h6 h7 h8n h8 h9
    rw [process_line_cached hm1 hflag hc hntn hshn hpl hpc, hlt]
    simp only [if_true, Bool.false_eq_true, if_false]
    rw [subHash_refLine hws h1 h2 h3 h4n h4 h5n h5 h6 h7 h8 h10,
        subVer_refLine hws h1 h2 h3 hshx h5 h6 h7 h8n h8 h9 h11]
  · have hm2 := searchMatch_refLine hws h1n h1 h2n h2 h3n h3 hshn hshx h5n h5 hsp3'
      (Or.inr rfl) hntn hntd h9
    rw [process_line_cached hm2 hflag hc hntn hshn hpl hpl, pyLt_irrefl]
    simp

/-- C5 amended: once a resolution of (owner, repo) succeeds, its result is in
the cache, and every later resolution of the same pair in the run is served
from the cache with no network call; only failed resolutions (which cache
nothing) can lead to a second network call for the same pair. -/
theorem C5_successful_resolution_cached_no_refetch
    {net : String → String → NetResponse} {now : Nat} {ow rp : String}
    {st : ResolverState} {res : ResolveResult} {vs : String × String}
    (h1 : get_latest_version net now ow rp st = .ok res) (h2 : res.value = some vs) :
    get_latest_version net now ow rp res.state = .ok ⟨some vs, res.state, 0, 0, []⟩ := by
  unfold get_latest_version check_rate_limit at h1
  cases hflag : st.rate_limit_exceeded with
  | true =>
    rw [hflag] at h1
    simp only [if_true] at h1
    obtain rfl : (⟨none, st, 0, 0, []⟩ : ResolveResult) = res := by simpa using h1
    simp at h2
  | false =>
    rw [hflag] at h1
    simp only [Bool.false_eq_true, if_false] at h1
    cases hcache : get_cached_version st ow rp with
    | some vs0 =>
      rw [hcache] at h1
      obtain rfl : (⟨some vs0, st, 0, 0, []⟩ : ResolveResult) = res := by simpa using h1
      obtain rfl : vs0 = vs := by simpa using h2
      exact resolve_cache_hit hflag hcache
    | none =>
      rw [hcache] at h1
      simp only [] at h1
      cases hnet : net ow rp with
      | ok tags =>
        rw [hnet] at h1
        simp only [] at h1
        cases tags with
        | nil =>
          obtain rfl : (⟨none, st, 1, 0, []⟩ : ResolveResult) = res := by simpa using h1
          simp at h2
        | cons t ts =>
          obtain ⟨name, sha⟩ := t
          obtain rfl : (⟨some (name, sha),
              ⟨((ow, rp), (name, sha)) :: st.cache, false⟩, 1, 0, []⟩ :
              ResolveResult) = res := by simpa using h1
          obtain rfl : (name, sha) = vs := by simpa using h2
          refine resolve_cache_hit rfl ?_
          simp [get_cached_version]
      | okMalformed =>
        rw [hnet] at h1
        simp only [] at h1
        obtain rfl : (⟨none, st, 1, 0, ["json_parse_error"]⟩ : ResolveResult) = res := by
          simpa using h1
        simp at h2
      | httpError status remaining reset =>
        rw [hnet] at h1
        simp only [] at h1
        by_cases h401 : status = 401
        · rw [if_pos h401] at h1
          exact absurd h1 (by simp)
        · rw [if_neg h401] at h1
          by_cases h403 : status = 403
          · rw [if_pos h403] at h1
            cases hhrl : handle_rate_limit remaining reset now with
            | mk flag slept =>
              rw [hhrl] at h1
              obtain rfl : (⟨none, ⟨st.cache, flag⟩, 1, slept, ["rate_limit"]⟩ :
                  ResolveResult) = res := by simpa using h1
              simp at h2
          · rw [if_neg h403] at h1
            obtain rfl : (⟨none, st, 1, 0, ["http_error"]⟩ : ResolveResult) = res := by
              simpa using h1
            simp at h2
      | connectionError =>
        rw [hnet] at h1
        simp only [] at h1
        obtain rfl : (⟨none, st, 1, 0, ["connection_error"]⟩ : ResolveResult) = res := by
          simpa using h1
        simp at h2
      | timeout =>
        rw [hnet] at h1
        simp only [] at h1
        obtain rfl : (⟨none, st, 1, 0, ["timeout"]⟩ : ResolveResult) = res := by
          simpa using h1
        simp at h2
      | otherError =>
        rw [hnet] at h1
        simp only [] at h1
        obtain rfl : (⟨none, st, 1, 0, ["request_error"]⟩ : ResolveResult) = res := by
          simpa using h1
        simp at h2

/-- C9 amended: the matcher is case-sensitive for the `v` prefix of the
version comment: with a lowercase `v` (or no prefix at all) the reference is
extracted, while with an uppercase `V` the entire line fails to match and is
treated as holding no reference.  Only the resolved tag's normalization
(lower().startswith) is case-insensitive. -/
theorem C9_matcher_v_case_sensitive
    (ws sp1 o r s sp2 sp3 d tl : List Char)
    (hws : ∀ c ∈ ws, isSpaceChar c = true)
    (h1n : sp1 ≠ []) (h1 : ∀ c ∈ sp1, isSpaceChar c = true)
    (h2n : o ≠ []) (h2 : ∀ c ∈ o, isWordDash c = true)
    (h3n : r ≠ []) (h3 : ∀ c ∈ r, isWordDash c = true)
    (h4n : s ≠ []) (h4 : ∀ c ∈ s, isHexLower c = true)
    (h5n : sp2 ≠ []) (h5 : ∀ c ∈ sp2, isSpaceChar c = true)
    (h6 : ∀ c ∈ sp3, isSpaceChar c = true)
    (h8n : d ≠ []) (h8 : ∀ c ∈ d, isDigitDot c = true)
    (h9 : notStartsB isDigitDot tl = true)
    (h12 : ∀ c ∈ tl, c ≠ ':') :
    searchMatch (refLine ws sp1 o r s sp2 sp3 ['v'] d tl) = some ⟨o, r, s, d⟩ ∧
    searchMatch (refLine ws sp1 o r s sp2 sp3 ['V'] d tl) = none := by
  constructor
  · exact searchMatch_refLine hws h1n h1 h2n h2 h3n h3 h4n h4 h5n h5 h6 (Or.inr rfl) h8n h8 h9
  · unfold refLine refTail
    rw [searchMatch_space_append hws]
    simp only [List.singleton_append]
    have hfail : matchAt ('u' :: 's' :: 'e' :: 's' :: ':' ::
        (sp1 ++ (o ++ ('/' :: (r ++ ('@' :: (s ++ (sp2 ++
          ('#' :: (sp3 ++ ('V' :: (d ++ tl)))))))))))) = none :=
      matchAt_canonical_badComment h1n h1 h2n h2 h3n h3 h4n h4 h5n h5 h6
        (by decide) (by decide) (by decide)
    rw [searchMatch_cons_none hfail,
        searchMatch_cons_none (matchAt_none_of_ne_u (by decide)),
        searchMatch_cons_none (matchAt_none_of_ne_u (by decide)),
        searchMatch_cons_none (matchAt_none_of_ne_u (by decide)),
        searchMatch_cons_none (matchAt_none_of_ne_u (by decide))]
    apply searchMatch_none_of_no_colon
    intro c hc
    rcases List.mem_append.mp hc with hc | hc
    · exact ne_of_class (h1 c hc) (show isSpaceChar ':' = false by decide)
    · rcases List.mem_append.mp hc with hc | hc
      · exact ne_of_class (h2 c hc) (show isWordDash ':' = false by decide)
      · rcases List.mem_cons.mp hc with hc | hc
        · subst hc; decide
        · rcases List.mem_append.mp hc with hc | hc
          · exact ne_of_class (h3 c hc) (show isWordDash ':' = false by decide)
          · rcases List.mem_cons.mp hc with hc | hc
            · subst hc; decide
            · rcases List.mem_append.mp hc with hc | hc
              · exact ne_of_class (h4 c hc) (show isHexLower ':' = false by decide)
              · rcases List.mem_append.mp hc with hc | hc
                · exact ne_of_class (h5 c hc) (show isSpaceChar ':' = false by decide)
                · rcases List.mem_cons.mp hc with hc | hc
                  · subst hc; decide
                  · rcases List.mem_append.mp hc with hc | hc
                    · exact ne_of_class (h6 c hc) (show isSpaceChar ':' = false by decide)
                    · rcases List.mem_cons.mp hc with hc | hc
                      · subst hc; decide
                      · rcases List.mem_append.mp hc with hc | hc
                        · exact ne_of_class (h8 c hc) (show isDigitDot ':' = false by decide)
                        · exact h12 c hc

/-- C6: in dry-run mode no file content is mutated and no backup is created
(the filesystem is returned untouched), while the statistics still count the
file and every would-be change; and per line, dry-run computes exactly the
same changed flag (and resolver effects) as a real run would, returning the
line unchanged. -/
theorem C6_dry_run_no_mutation_stats_counted :
    ∀ (net : String → String → NetResponse) (now : Nat) (backup : Bool) (plan : IOPlan)
      (fs : FileSys) (p : PathName) (st : ResolverState) (stats : Stats),
      (∀ r, update_action_version net now true backup plan fs p st stats = .ok r →
        r.fs = fs ∧
        r.stats.files_updated = stats.files_updated + (if r.changes = 0 then 0 else 1) ∧
        r.stats.total_changes = stats.total_changes + r.changes) ∧
      (∀ (l : List Char) (st2 : ResolverState),
        process_line net now true l st2 =
          (process_line net now false l st2).map
            (fun res => ⟨l, res.changed, res.state, res.netCalls⟩)) := by
  intro net now backup plan fs p st stats
  constructor
  · intro r h
    unfold update_action_version at h
    cases hrf : plan.readFails with
    | true =>
      rw [hrf] at h
      simp only [if_true] at h
      obtain rfl : (⟨fs, stats, st, 0, ["file_error"]⟩ : FileOutcome) = r := by simpa using h
      refine ⟨rfl, ?_, ?_⟩ <;> simp
    | false =>
      rw [hrf] at h
      simp only [Bool.false_eq_true, if_false] at h
      cases hfg : fsGet fs p with
      | none =>
        rw [hfg] at h
        simp only [] at h
        obtain rfl : (⟨fs, stats, st, 0, ["file_error"]⟩ : FileOutcome) = r := by simpa using h
        refine ⟨rfl, ?_, ?_⟩ <;> simp
      | some content =>
        rw [hfg] at h
        simp only [] at h
        cases hproc : processLines net now true (splitLines content) st with
        | error e =>
          rw [hproc] at h
          exact absurd h (by simp)
        | ok t =>
          obtain ⟨ls', ch, cnt, st', n⟩ := t
          rw [hproc] at h
          simp only [] at h
          have hfin : finalize_update plan fs p ls' ch cnt true backup stats =
              (fs, (if ch = true then
                      { stats with files_updated := stats.files_updated + 1,
                                   total_changes := stats.total_changes + cnt }
                    else stats), []) := by
            unfold finalize_update
            cases ch <;> simp
          rw [hfin] at h
          simp only [] at h
          obtain rfl : (⟨fs, (if ch = true then
              { stats with files_updated := stats.files_updated + 1,
                           total_changes := stats.total_changes + cnt }
            else stats), st', cnt, []⟩ : FileOutcome) = r := by simpa using h
          have hiff := processLines_changed_iff hproc
          refine ⟨rfl, ?_, ?_⟩
          · cases hch : ch with
            | false =>
              have hcnt : cnt = 0 := by
                by_contra hne
                rw [hiff.mpr hne] at hch
                exact Bool.noConfusion hch
              simp [hch, hcnt]
            | true =>
              have hcnt : cnt ≠ 0 := hiff.mp hch
              simp [hch, hcnt]
          · cases hch : ch with
            | false =>
              have hcnt : cnt = 0 := by
                by_contra hne
                rw [hiff.mpr hne] at hch
                exact Bool.noConfusion hch
              simp [hch, hcnt]
            | true => simp [hch]
  · intro l st2
    unfold process_line
    cases hm : searchMatch l with
    | none => simp [Except.map]
    | some g =>
      simp only []
      cases hg : get_latest_version net now (String.mk g.owner) (String.mk g.repo) st2 with
      | error e => simp [Except.map]
      | ok res =>
        simp only []
        cases hv : res.value with
        | none => simp [Except.map]
        | some pair =>
          obtain ⟨tag, nsha⟩ := pair
          simp only []
          by_cases hie : ((stripLeadingV tag.data).isEmpty || nsha.data.isEmpty) = true
          · simp only [if_pos hie]
            simp [Except.map]
          · simp only [if_neg hie]
            cases hp1 : version_parse (stripLeadingV tag.data) with
            | none => simp [Except.map]
            | some L =>
              simp only []
              cases hp2 : version_parse g.ver with
              | none => simp [Except.map]
              | some C =>
                simp only []
                by_cases hpl : pyLt C L = true
                · simp only [if_pos hpl]
                  simp [Except.map]
                · simp only [if_neg hpl]
                  simp [Except.map]

/-- C3 amended: read, backup, and write I/O failures are reported as per-file
diagnostics and never propagate (the run continues); a read failure or a
write failure at open leaves the file in its original state; but a failed
backup does not prevent the subsequent write — the original is still
overwritten (with the diagnostic logged), and a mid-write failure can leave a
truncated file. -/
theorem C3_io_failures_diagnosed_run_continues :
    ∀ (net : String → String → NetResponse) (now : Nat) (dry backup : Bool) (plan : IOPlan)
      (fs : FileSys) (p : PathName) (st : ResolverState) (stats : Stats)
      (lines : List (List Char)) (changed : Bool) (cnt : Nat),
      (plan.readFails = true →
        update_action_version net now dry backup plan fs p st stats =
          .ok ⟨fs, stats, st, 0, ["file_error"]⟩) ∧
      (plan.write = .failOpen →
        fsGet (finalize_update plan fs p lines changed cnt dry backup stats).1 p =
          fsGet fs p) ∧
      (plan.backupFails = true → plan.write = .success →
        finalize_update plan fs p lines true cnt false true stats =
          (fsSet fs p (joinLines lines),
           { stats with files_updated := stats.files_updated + 1,
                        total_changes := stats.total_changes + cnt },
           ["backup_error"])) := by
  intro net now dry backup plan fs p st stats lines changed cnt
  refine ⟨fun hrf => ?_, fun hw => ?_, fun hb hw => ?_⟩
  · unfold update_action_version
    rw [hrf]
    simp
  · unfold finalize_update
    cases changed with
    | false => simp
    | true =>
      simp only [if_true]
      cases dry with
      | true => simp
      | false =>
        simp only [Bool.false_eq_true, if_false]
        cases backup with
        | false =>
          simp only [Bool.false_eq_true, if_false, hw]
        | true =>
          simp only [if_true]
          unfold create_backup
          cases hbf : plan.backupFails with
          | true => simp [hw]
          | false =>
            simp only [Bool.false_eq_true, if_false]
            cases hfg : fsGet fs p with
            | none => simp [hw, hfg]
            | some orig =>
              simp only [hw]
              rw [fsGet_fsSet_ne _ _ (backupPathOf_ne p)]
              exact hfg
  · unfold finalize_update create_backup
    rw [hw, hb]
    simp

/-! ## Witnesses -/

/-- Witness for C3: a concrete read failure yields a per-file diagnostic and
the run continues with the filesystem untouched. -/
theorem C3_io_failures_witness :
    update_action_version netConnFail 0 false false ⟨true, false, .success⟩ [] pathA
      ⟨[], false⟩ ⟨0, 0, 0⟩ = .ok ⟨[], ⟨0, 0, 0⟩, ⟨[], false⟩, 0, ["file_error"]⟩ :=
  (C3_io_failures_diagnosed_run_continues netConnFail 0 false false ⟨true, false, .success⟩
    [] pathA ⟨[], false⟩ ⟨0, 0, 0⟩ [] false 0).1 rfl

/-- Witness for C4: the scenario-A line is rewritten once and a second run
leaves the rewritten line byte-identical with no change. -/
theorem C4_idempotence_witness :
    process_line netConnFail 0 false
        (refLine [] [' '] ("acme").data ("tool").data ("deadbeef").data [' '] [' '] ['v']
          ("1.2.0").data ['\n'])
        ⟨[(("acme", "tool"), ("v1.3.0", "cafebabe"))], false⟩ =
      .ok ⟨refLine [] [' '] ("acme").data ("tool").data ("cafebabe").data [' '] [' '] ['v']
             (stripLeadingV ("v1.3.0" : String).data) ['\n'], true,
           ⟨[(("acme", "tool"), ("v1.3.0", "cafebabe"))], false⟩, 0⟩ ∧
    process_line netConnFail 0 false
        (refLine [] [' '] ("acme").data ("tool").data ("cafebabe").data [' '] [' '] ['v']
          (stripLeadingV ("v1.3.0" : String).data) ['\n'])
        ⟨[(("acme", "tool"), ("v1.3.0", "cafebabe"))], false⟩ =
      .ok ⟨refLine [] [' '] ("acme").data ("tool").data ("cafebabe").data [' '] [' '] ['v']
             (stripLeadingV ("v1.3.0" : String).data) ['\n'], false,
           ⟨[(("acme", "tool"), ("v1.3.0", "cafebabe"))], false⟩, 0⟩ :=
  C4_second_run_rewrites_nothing netConnFail 0 [] [' '] ("acme").data ("tool").data
    ("deadbeef").data [' '] [' '] ['v'] ("1.2.0").data ['\n']
    ⟨[(("acme", "tool"), ("v1.3.0", "cafebabe"))], false⟩ "v1.3.0" "cafebabe"
    ⟨0, [1, 3, 0]⟩ ⟨0, [1, 2, 0]⟩
    (by decide) (by decide) (by decide) (by decide) (by decide) (by decide) (by decide)
    (by decide) (by decide) (by decide) (by decide) (by decide) (by decide) (by decide)
    (by decide) (by decide) (by decide) (by decide) (by decide) (by decide) (by decide)
    (by decide) (by decide) (by decide) (by decide) (by decide) (by decide)

/-- Witness for C5: after a successful resolution is cached, re-resolving the
same pair is served from the cache with zero network calls. -/
theorem C5_cached_witness :
    get_latest_version (fun _ _ => NetResponse.ok [("v1.0", "abc")]) 0 "acme" "tool"
        ⟨[(("acme", "tool"), ("v1.0", "abc"))], false⟩ =
      .ok ⟨some ("v1.0", "abc"), ⟨[(("acme", "tool"), ("v1.0", "abc"))], false⟩, 0, 0, []⟩ :=
  C5_successful_resolution_cached_no_refetch
    (show get_latest_version (fun _ _ => NetResponse.ok [("v1.0", "abc")]) 0 "acme" "tool"
        ⟨[], false⟩ =
        .ok ⟨some ("v1.0", "abc"), ⟨[(("acme", "tool"), ("v1.0", "abc"))], false⟩, 1, 0, []⟩
      by decide)
    (by decide)

/-- Witness for C6: a concrete dry run that would apply one change leaves the
filesystem untouched while counting the change, and a concrete line is
processed in dry-run mode with the same flag as the real run. -/
theorem C6_dry_run_witness :
    process_line netConnFail 0 true ("uses: acme/tool@deadbeef # v1.2.0\n").data
        ⟨[(("acme", "tool"), ("v1.3.0", "cafebabe"))], false⟩ =
      (process_line netConnFail 0 false ("uses: acme/tool@deadbeef # v1.2.0\n").data
        ⟨[(("acme", "tool"), ("v1.3.0", "cafebabe"))], false⟩).map
          (fun res => ⟨("uses: acme/tool@deadbeef # v1.2.0\n").data,
                       res.changed, res.state, res.netCalls⟩) ∧
    (⟨[(pathA, ("uses: acme/tool@deadbeef # v1.2.0\n").data)], ⟨1, 1, 1⟩,
      ⟨[(("acme", "tool"), ("v1.3.0", "cafebabe"))], false⟩, 1, []⟩ : FileOutcome).fs =
      [(pathA, ("uses: acme/tool@deadbeef # v1.2.0\n").data)] :=
  ⟨(C6_dry_run_no_mutation_stats_counted netConnFail 0 false planOK
      [(pathA, ("uses: acme/tool@deadbeef # v1.2.0\n").data)] pathA
      ⟨[(("acme", "tool"), ("v1.3.0", "cafebabe"))], false⟩ ⟨1, 0, 0⟩).2
      ("uses: acme/tool@deadbeef # v1.2.0\n").data
      ⟨[(("acme", "tool"), ("v1.3.0", "cafebabe"))], false⟩,
   ((C6_dry_run_no_mutation_stats_counted netConnFail 0 false planOK
      [(pathA, ("uses: acme/tool@deadbeef # v1.2.0\n").data)] pathA
      ⟨[(("acme", "tool"), ("v1.3.0", "cafebabe"))], false⟩ ⟨1, 0, 0⟩).1
      ⟨[(pathA, ("uses: acme/tool@deadbeef # v1.2.0\n").data)], ⟨1, 1, 1⟩,
       ⟨[(("acme", "tool"), ("v1.3.0", "cafebabe"))], false⟩, 1, []⟩ (by decide)).1⟩

/-- Witness for C7: a concrete backup-and-write run places the original bytes
in the backups directory and the new content at the original path. -/
theorem C7_backup_witness :
    fsGet (finalize_update planOK [(pathA, ("old\n").data)] pathA [("new\n").data] true 1
        false true ⟨1, 0, 0⟩).1 (backupPathOf pathA) = some ("old\n").data ∧
    fsGet (finalize_update planOK [(pathA, ("old\n").data)] pathA [("new\n").data] true 1
        false true ⟨1, 0, 0⟩).1 pathA = some (joinLines [("new\n").data]) :=
  C7_backup_holds_original_file_rewritten planOK [(pathA, ("old\n").data)] pathA
    [("new\n").data] 1 ⟨1, 0, 0⟩ ("old\n").data rfl rfl (by decide)

/-- Witness for C8: with the flag set, a concrete resolution short-circuits;
a concrete soft 403 sets the flag; a concrete hard 403 sleeps out the window
and clears it. -/
theorem C8_guard_witness :
    get_latest_version netConnFail 30 "acme" "tool" ⟨[], true⟩ =
      .ok ⟨none, ⟨[], true⟩, 0, 0, []⟩ ∧
    handle_rate_limit 5 100 30 = (true, 0) ∧
    handle_rate_limit 0 100 30 = (false, 70) :=
  ⟨(C8_guard_short_circuits_until_hard_wait netConnFail 30 "acme" "tool" ⟨[], true⟩ 5 100).1
     rfl,
   (C8_guard_short_circuits_until_hard_wait netConnFail 30 "acme" "tool" ⟨[], true⟩ 5 100).2.1
     (by decide),
   (C8_guard_short_circuits_until_hard_wait netConnFail 30 "acme" "tool" ⟨[], true⟩ 0 100).2.2⟩

/-- Witness for C9: for a concrete reference line the lowercase `v` comment is
matched and the uppercase `V` comment is not. -/
theorem C9_case_sensitivity_witness :
    searchMatch (refLine [] [' '] ("actions").data ("checkout").data ("abc123").data [' ']
      [] ['v'] ("3.1").data []) =
      some ⟨("actions").data, ("checkout").data, ("abc123").data, ("3.1").data⟩ ∧
    searchMatch (refLine [] [' '] ("actions").data ("checkout").data ("abc123").data [' ']
      [] ['V'] ("3.1").data []) = none :=
  C9_matcher_v_case_sensitive [] [' '] ("actions").data ("checkout").data ("abc123").data
    [' '] [] ("3.1").data []
    (by decide) (by decide) (by decide) (by decide) (by decide) (by decide) (by decide)
    (by decide) (by decide) (by decide) (by decide) (by decide) (by decide) (by decide)
    (by decide) (by decide)

/-- Witness for C10: concrete instances of the two global substitution
equations. -/
theorem C10_substitution_witness :
    subHash ("ccc").data (("x ").data ++ ('@' :: (("aa").data ++ (" y").data))) =
      ("x ").data ++ ('@' :: (("ccc").data ++ subHash ("ccc").data (" y").data)) ∧
    subVer ("2.0").data (("x ").data ++ ('#' :: ([' '] ++ (['v'] ++ (("1.0").data ++
        (" y").data))))) =
      ("x ").data ++ ('#' :: ' ' :: 'v' :: (("2.0").data ++ subVer ("2.0").data
        (" y").data)) :=
  ⟨C10_substitutions_global_tokens_preserved_outside.1 ("ccc").data ("x ").data ("aa").data
     (" y").data (by decide) (by decide) (by decide) (by decide),
   C10_substitutions_global_tokens_preserved_outside.2 ("2.0").data ("x ").data [' '] ['v']
     ("1.0").data (" y").data (by decide) (by decide) (Or.inr rfl) (by decide) (by decide)
     (by decide)⟩

end UpdateActions
